import Mathlib

/-!
# Verification of the safe_camera_trap_tools deployment engine

A shallow embedding, in Lean 4, of the deployment compilation and validation
engine of the `safe_camera_trap_tools` repository:

* `safe_camera_trap_tools.py`: `_process_folder`, `_convert_keywords`,
  `validate_folder`, `gather_deployment_files`, `create_deployment`;
* `process_deployment.py`: the older `_process_folder` variant and
  `process_deployment`.

Python values are modelled as follows: strings are `String`, tag values are
`TagVal` (string, list of strings, or a converted keyword dictionary),
dictionaries are association lists in insertion order (`pyGet` / `pySet` /
`pyDel`), `datetime.datetime` is `PyDateTime` with field-lexicographic
comparison, and raised exceptions are the `Except PyErr` monad.  The external
exiftool collaborator (`et.get_tags_batch` / `et.get_metadata_batch`) is an
input function `String → ExifDict` from a file path to the tag dictionary
read for that file; directory listings arrive as explicit `List String`
arguments, and the filesystem effects of `create_deployment` are reified as a
list of `FsEffect` values.  `set(...)` is modelled by `List.dedup`
(first-occurrence order; the Python iteration order of a set is unspecified).

Functions whose implementation is not in the repository snapshot (the
`Deployment` class used by `example_scripts/chapman_deployments.py`) are
modelled from the specification and carry a `Modelled from the spec:` note.
-/

namespace Sctt

/-- Decidable equality for `Except`, used to evaluate concrete runs with `decide`. -/
instance instDecEqExcept {ε α : Type} [DecidableEq ε] [DecidableEq α] :
    DecidableEq (Except ε α) := fun a b =>
  match a, b with
  | .error e, .error f =>
    if h : e = f then isTrue (by rw [h]) else isFalse (fun hh => h (Except.error.inj hh))
  | .ok x, .ok y =>
    if h : x = y then isTrue (by rw [h]) else isFalse (fun hh => h (Except.ok.inj hh))
  | .error _, .ok _ => isFalse (fun hh => Except.noConfusion hh)
  | .ok _, .error _ => isFalse (fun hh => Except.noConfusion hh)

/-- A Python exception.  Dynamic message parts that no claim consults are
elided; static messages are kept verbatim. -/
inductive PyErr where
  | nameError
  | attributeError
  | indexError
  | typeError
  | valueError
  | keyError
  | runtimeError (msg : String)
  | ioError (msg : String)
deriving DecidableEq, Repr

/-- Left-to-right effectful map: models a Python list comprehension or loop
that can raise, stopping at the first raised exception. -/
def exMapM {ε α β : Type} (f : α → Except ε β) : List α → Except ε (List β)
  | [] => .ok []
  | a :: as =>
    match f a with
    | .error e => .error e
    | .ok b =>
      match exMapM f as with
      | .error e => .error e
      | .ok bs => .ok (b :: bs)

/-- A value stored in an exiftool tag dictionary: a plain string (numeric
tags are carried in their string form, which the engine only compares and
concatenates), a list of strings (the raw `IPTC:Keywords` tag), or a
converted keyword dictionary (the result of `_convert_keywords`). -/
inductive TagVal where
  | s (v : String)
  | ls (v : List String)
  | kw (d : List (String × String))
deriving DecidableEq, Repr

/-- A raw exiftool response for one file: tag name to value, insertion order. -/
def ExifDict : Type := List (String × TagVal)

/-- Python `d.get(k, None)` on a raw tag dictionary. -/
def pyGetTV (d : ExifDict) (k : String) : Option TagVal :=
  (d.find? (fun p => p.1 = k)).map (fun p => p.2)

/-- Python `d[k]` / `d.get(k)` on an association list: the value at the first
occurrence of the key, or `none` when the key is absent. -/
def pyGet {α : Type} (d : List (String × α)) (k : String) : Option α :=
  (d.find? (fun p => p.1 = k)).map (fun p => p.2)

/-- Python `d[k] = v` on an association list, with Python dict semantics: an
existing key keeps its position and is overwritten, a new key is appended. -/
def pySet {α : Type} (d : List (String × α)) (k : String) (v : α) :
    List (String × α) :=
  if (d.find? (fun p => p.1 = k)).isSome then
    d.map (fun p => if p.1 = k then (k, v) else p)
  else d ++ [(k, v)]

/-- Python `del d[k]` on an association list. -/
def pyDel {α : Type} (d : List (String × α)) (k : String) : List (String × α) :=
  d.filter (fun p => p.1 ≠ k)

/-- Python `os.path.join` for the two-argument uses in the engine (POSIX). -/
def pathJoin (a b : String) : String := a ++ "/" ++ b

/-- Python `fl.lower().endswith('jpg')` — note the source tests the suffix `jpg`
without a dot. -/
def lowerEndsWithJpg (s : String) : Bool :=
  match (s.data.map Char.toLower).reverse with
  | 'g' :: 'p' :: 'j' :: _ => true
  | _ => false

/-- Decimal digits of `n` (most significant first), by fuel-indexed division;
the fuel `n + 1` always suffices. -/
def natDecAux : Nat → Nat → List Char
  | 0, _ => []
  | fuel + 1, n =>
    if n < 10 then [Nat.digitChar n]
    else natDecAux fuel (n / 10) ++ [Nat.digitChar (n % 10)]

/-- Decimal rendering of a natural number, as Python `str(n)`. -/
def natDec (n : Nat) : String := ⟨natDecAux (n + 1) n⟩

/-- Rendering `"%02d"` as used by `strftime` field rendering. -/
def pad2 (n : Nat) : String := if n < 10 then "0" ++ natDec n else natDec n

/-- Rendering `"%04d"`, the `%Y` field. -/
def pad4 (n : Nat) : String :=
  if n < 10 then "000" ++ natDec n
  else if n < 100 then "00" ++ natDec n
  else if n < 1000 then "0" ++ natDec n
  else natDec n

/-- A `datetime.datetime` value as produced by `strptime` in the engine. -/
structure PyDateTime where
  year : Nat
  month : Nat
  day : Nat
  hour : Nat
  minute : Nat
  second : Nat
deriving DecidableEq, Repr

/-- Field-lexicographic strict comparison, as Python compares datetimes. -/
def PyDateTime.ltB (a b : PyDateTime) : Bool :=
  if a.year ≠ b.year then a.year < b.year
  else if a.month ≠ b.month then a.month < b.month
  else if a.day ≠ b.day then a.day < b.day
  else if a.hour ≠ b.hour then a.hour < b.hour
  else if a.minute ≠ b.minute then a.minute < b.minute
  else a.second < b.second

/-- Python `min` over a non-empty list of datetimes (first minimum wins, as in
Python `min`). -/
def pyMin1 (x : PyDateTime) (xs : List PyDateTime) : PyDateTime :=
  xs.foldl (fun a b => if PyDateTime.ltB b a then b else a) x

/-- Python `max` over a non-empty list of datetimes. -/
def pyMax1 (x : PyDateTime) (xs : List PyDateTime) : PyDateTime :=
  xs.foldl (fun a b => if PyDateTime.ltB a b then b else a) x

/-- Numeric value of a decimal digit character. -/
def chVal (c : Char) : Nat := c.toNat - 48

/-- Python `datetime.strptime(s, '%Y:%m:%d %H:%M:%S')`: the engine's fixed EXIF
datetime format, `none` modelling the `ValueError` on any other shape. -/
def strptimeExif (s : String) : Option PyDateTime :=
  match s.data with
  | [y1, y2, y3, y4, ':', m1, m2, ':', d1, d2, ' ', h1, h2, ':', n1, n2, ':', s1, s2] =>
    if (y1.isDigit && y2.isDigit && y3.isDigit && y4.isDigit && m1.isDigit && m2.isDigit &&
        d1.isDigit && d2.isDigit && h1.isDigit && h2.isDigit && n1.isDigit && n2.isDigit &&
        s1.isDigit && s2.isDigit) then
      some { year := 1000 * chVal y1 + 100 * chVal y2 + 10 * chVal y3 + chVal y4,
             month := 10 * chVal m1 + chVal m2,
             day := 10 * chVal d1 + chVal d2,
             hour := 10 * chVal h1 + chVal h2,
             minute := 10 * chVal n1 + chVal n2,
             second := 10 * chVal s1 + chVal s2 }
    else none
  | _ => none

/-- Python `dt.strftime("%Y%m%d_%H%M%S")`. -/
def strftimeYmdHMS (d : PyDateTime) : String :=
  pad4 d.year ++ pad2 d.month ++ pad2 d.day ++ "_" ++
    pad2 d.hour ++ pad2 d.minute ++ pad2 d.second

/-- Python `dt.strftime("%Y%m%d")`. -/
def strftimeYmd (d : PyDateTime) : String :=
  pad4 d.year ++ pad2 d.month ++ pad2 d.day

/-- The value must be a Python `str`; any other type raises `TypeError`
where the engine concatenates or parses it. -/
def asStr : TagVal → Except PyErr String
  | .s v => .ok v
  | _ => .error .typeError

/-- Lookahead of the burst-name pattern `(?= of \d+)` at the start of a
character list: a space, `of`, a space, then at least one digit. -/
def burstLook : List Char → Bool
  | ' ' :: 'o' :: 'f' :: ' ' :: d :: _ => d.isDigit
  | _ => false

/-- Helper for `\d+.jpg` continuation after at least one digit was consumed:
either any single character followed by the literal `jpg`, or one more digit
and recurse (the backtracking semantics of the greedy `\d+`). -/
def jpgAfter : List Char → Bool
  | [] => false
  | c :: rest =>
    (match rest with
     | 'j' :: 'p' :: 'g' :: _ => true
     | _ => false) || (c.isDigit && jpgAfter rest)

/-- Matching `\d+.jpg` at the start of a character list (the dot of the source regex
is an unescaped any-character). -/
def digitsDotJpg : List Char → Bool
  | [] => false
  | d :: rest => d.isDigit && jpgAfter rest

/-- Lookahead of `(?= of \d+.jpg)` at the start of a character list. -/
def burstLookJpg : List Char → Bool
  | ' ' :: 'o' :: 'f' :: ' ' :: rest => digitsDotJpg rest
  | _ => false

/-- Scanner shared by both burst regexes: `run` holds the reversed digits of
the maximal digit run currently open; a non-digit closes the run and tests
the lookahead.  Returns the leftmost match of `\d+(?=...)`. -/
def burstSearchGo (look : List Char → Bool) (run : List Char) :
    List Char → Option (List Char)
  | [] => none
  | c :: rest =>
    if c.isDigit then burstSearchGo look (c :: run) rest
    else if run ≠ [] && look (c :: rest) then some run.reverse
    else burstSearchGo look [] rest

/-- Python `re.compile('\d+(?= of \d+)').search(s)`, as used by the sequence
fallback of `validate_folder` (line 318). -/
def burstSearch (s : String) : Option String :=
  (burstSearchGo burstLook [] s.data).map (fun l => ⟨l⟩)

/-- Python `re.compile('\d+(?= of \d+.jpg)').search(s)`, as used by the sequence
fallback of `_process_folder` (line 68). -/
def burstSearchJpg (s : String) : Option String :=
  (burstSearchGo burstLookJpg [] s.data).map (fun l => ⟨l⟩)

/-- Python whitespace for `str.split()` / `str.strip()` (ASCII fragment). -/
def isWs (c : Char) : Bool := c = ' ' || c = '\t' || c = '\n' || c = '\r'

/-- Accumulating scanner for `str.split()`: `cur` holds the reversed chars of
the current word. -/
def splitWsGo (cur : List Char) : List Char → List (List Char)
  | [] => if cur.isEmpty then [] else [cur.reverse]
  | c :: rest =>
    if isWs c then
      if cur.isEmpty then splitWsGo [] rest else cur.reverse :: splitWsGo [] rest
    else splitWsGo (c :: cur) rest

/-- Python `s.split()` with no argument: split on whitespace runs, no empty words. -/
def pySplitWs (s : String) : List String :=
  (splitWsGo [] s.data).map (fun l => ⟨l⟩)

/-- Accumulating scanner for `s.split(':')`: `cur` holds the reversed chars
of the current piece. -/
def splitColonGo (cur : List Char) : List Char → List (List Char)
  | [] => [cur.reverse]
  | c :: rest =>
    if c = ':' then cur.reverse :: splitColonGo [] rest
    else splitColonGo (c :: cur) rest

/-- Python `s.split(':')`: every colon separates, empty pieces kept. -/
def pySplitColon (s : String) : List String :=
  (splitColonGo [] s.data).map (fun l => ⟨l⟩)

/-- Python `s.strip()`: drop leading and trailing whitespace. -/
def pyStrip (s : String) : String :=
  ⟨((s.data.dropWhile isWs).reverse.dropWhile isWs).reverse⟩

/-- The character class `[A-z]` of the tag-name regex (codepoints 65–122,
letters plus the six punctuation characters between `Z` and `a`). -/
def isAz (c : Char) : Bool := 65 ≤ c.toNat && c.toNat ≤ 122

/-- Scanner for `re.sub('[A-z]+:', '', s)`: `run` holds the reversed chars of
the `[A-z]` run currently open.  A colon closing a non-empty run deletes run
and colon; any other closing character emits the run and rescans after it. -/
def stripGo (run : List Char) : List Char → List Char
  | [] => run.reverse
  | c :: rest =>
    if isAz c then stripGo (c :: run) rest
    else if c = ':' && run ≠ [] then stripGo [] rest
    else run.reverse ++ c :: stripGo [] rest

/-- Python `re.compile('[A-z]+:').sub('', s)`: strip every metadata-group prefix
from a tag name (`validate_folder` lines 208–209, `extract_deployment_data`
lines 516–517). -/
def stripGroup (s : String) : String := ⟨stripGo [] s.data⟩

/-- Matching `[A-z]+` then `:` at the start once at least one `[A-z]` char was
consumed: the next char is the colon, or one more `[A-z]` char and recurse. -/
def colonAfterRun : List Char → Bool
  | [] => false
  | c :: rest => c = ':' || (isAz c && colonAfterRun rest)

/-- Whether `[A-z]+:` matches anywhere in the character list: the formal
reading of a tag name containing a metadata-group prefix ending in a colon. -/
def azRunColon : List Char → Bool
  | [] => false
  | c :: rest => (isAz c && colonAfterRun rest) || azRunColon rest

/-- Converting `target_tags` / `keep_tags` to 2-tuples of current and simplified name
(`validate_folder` line 209). -/
def simplifyPairs (tags : List String) : List (String × String) :=
  tags.map (fun vl => (vl, stripGroup vl))

/-- The tag normalizer: one output row per entry, one `(short, value)` pair
per requested tag, `entry.get(long_key, None)` filling absent keys with an
explicit null (`validate_folder` lines 211–212).  Rows are dictionaries from
short name to optional value, so a second application reads the explicit
nulls back unchanged. -/
def normalizeEntries (tags : List String)
    (entries : List (List (String × Option TagVal))) :
    List (List (String × Option TagVal)) :=
  entries.map (fun entry =>
    (simplifyPairs tags).map (fun p => (p.2, (pyGet entry p.1).join)))

/-- Sort key of a split keyword: `x[0]`, the piece before the first colon. -/
def kwKey (x : List String) : String := x.headD ""

/-- Python string `<=` on character lists, lexicographic by codepoint. -/
def charsLe : List Char → List Char → Bool
  | [], _ => true
  | _ :: _, [] => false
  | a :: as, b :: bs =>
    if a = b then charsLe as bs
    else decide (a.toNat < b.toNat)

/-- Python `a <= b` on strings. -/
def strLe (a b : String) : Bool := charsLe a.data b.data

/-- Stable insertion for `list.sort(key=lambda x: x[0])`: the inserted
element precedes existing elements of equal key, preserving original order
because elements are inserted front-to-back. -/
def insertKw (x : List String) : List (List String) → List (List String)
  | [] => [x]
  | y :: ys => if strLe (kwKey x) (kwKey y) then x :: y :: ys else y :: insertKw x ys

/-- Python `kw_list.sort(key=lambda x: x[0])`: a stable sort by leading piece. -/
def pySortKw : List (List String) → List (List String)
  | [] => []
  | x :: xs => insertKw x (pySortKw xs)

/-- Accumulating scanner for `itertools.groupby(kw_list, key=lambda x: x[0])`:
`k` is the key of the open group, `acc` its reversed members. -/
def pyGroupByGo (k : String) (acc : List (List String)) :
    List (List String) → List (String × List (List String))
  | [] => [(k, acc.reverse)]
  | x :: xs =>
    if kwKey x = k then pyGroupByGo k (x :: acc) xs
    else (k, acc.reverse) :: pyGroupByGo (kwKey x) [x] xs

/-- Python `itertools.groupby` keyed on `x[0]`: maximal runs of equal keys. -/
def pyGroupBy : List (List String) → List (String × List (List String))
  | [] => []
  | x :: xs => pyGroupByGo (kwKey x) [x] xs

/-- The dictionary build of `_convert_keywords` (lines 144–146): for each
group, `', '.join(vl[1].strip() for vl in vals)` (an entry without a second
piece raises `IndexError`), stored under `'Tag_' + key`. -/
def buildKwDictGo (acc : List (String × String)) :
    List (String × List (List String)) → Except PyErr (List (String × String))
  | [] => .ok acc
  | (key, vals) :: rest =>
    match exMapM (fun vl =>
        match vl.get? 1 with
        | some v => .ok (pyStrip v)
        | none => .error PyErr.indexError) vals with
    | .error e => .error e
    | .ok vs => buildKwDictGo (pySet acc ("Tag_" ++ key) (String.intercalate ", " vs)) rest

/-- Function `_convert_keywords` (`safe_camera_trap_tools.py` lines 118–148): unpack a
keyword annotation (`None`, a single string, or a list of strings; iterating
a dict yields its keys) into a `Tag_<n>` dictionary, grouping by the piece
before the colon and joining stripped values with `', '`. -/
def convert_keywords (keywords : Option TagVal) : Except PyErr (List (String × String)) :=
  match keywords with
  | none => .ok []
  | some v =>
    let kws : List String :=
      match v with
      | .s x => [x]
      | .ls l => l
      | .kw d => d.map (fun p => p.1)
    let kw_list := kws.map pySplitColon
    let kw_sorted := pySortKw kw_list
    let kw_groups := pyGroupBy kw_sorted
    buildKwDictGo [] kw_groups

/-- A source directory: its path and the plain file names of its direct
contents (`next(os.walk(image_dir))[2]`). -/
structure SrcFolder where
  dir : String
  files : List String
deriving DecidableEq, Repr

/-- Function `_process_folder` of `safe_camera_trap_tools.py` (lines 16–114).  Reads
`EXIF:CreateDate` and `MakerNotes:Sequence` for every JPEG, falls back to the
`\d+(?= of \d+.jpg)` file-name pattern for missing sequences, raises on
still-missing sequences or dates, and builds the new names as
`location + "_" + dt.strftime("%Y%m%d_%H%M%S") + seq + ".jpg"` (line 105:
the raw sequence value is appended, with no separating underscore and no
splitting of the `'n total'` tag format).  An empty folder returns no files
and the sentinel `datetime(1, 1, 1)`. -/
def process_folder (et : String → ExifDict) (folder : SrcFolder) (location : String) :
    Except PyErr (List (String × String) × PyDateTime) :=
  let jpeg_files := folder.files.filter lowerEndsWithJpg
  if jpeg_files.length ≠ 0 then
    let paths := jpeg_files.map (fun fl => pathJoin folder.dir fl)
    let tag_data := paths.map et
    let sequence := tag_data.map (fun td => pyGetTV td "MakerNotes:Sequence")
    let sequence :=
      if sequence.contains none then
        let fseq := jpeg_files.map burstSearchJpg
        (sequence.zip fseq).map (fun p => if p.1.isSome then p.1 else p.2.map TagVal.s)
      else sequence
    if sequence.contains none then
      .error (.runtimeError "files missing sequence number")
    else
      let create_date := tag_data.map (fun td => pyGetTV td "EXIF:CreateDate")
      if create_date.contains none then
        .error (.runtimeError "files missing creation date tag")
      else
        match exMapM (fun td =>
            match pyGetTV td "EXIF:CreateDate" with
            | some v =>
              match asStr v with
              | .error e => .error e
              | .ok str =>
                match strptimeExif str with
                | some dt => .ok dt
                | none => .error PyErr.valueError
            | none => .error PyErr.keyError) tag_data with
        | .error e => .error e
        | .ok cds =>
          match exMapM (fun o =>
              match o with
              | some v => asStr v
              | none => .error PyErr.typeError) sequence with
          | .error e => .error e
          | .ok seqs =>
            let new_name := (cds.zip seqs).map (fun p =>
              location ++ "_" ++ strftimeYmdHMS p.1 ++ p.2 ++ ".jpg")
            match cds with
            | [] => .error PyErr.valueError
            | d0 :: drest => .ok (paths.zip new_name, pyMin1 d0 drest)
  else .ok ([], ⟨1, 1, 1, 0, 0, 0⟩)

/-- Function `_process_folder` of `process_deployment.py` (lines 24–84).  Raises when
either tag is absent for any file, then builds
`'_' + td['MakerNotes:Sequence'].split()[0]` and the name
`location + "_" + dt.strftime("%Y%m%d_%H%M%S") + seq + ".jpg"` — here `seq`
carries its own leading underscore and the leading token of the `'n total'`
sequence value.  No empty-folder guard: `min` of an empty list raises. -/
def process_folder_pd (et : String → ExifDict) (folder : SrcFolder) (location : String) :
    Except PyErr (List (String × String) × PyDateTime) :=
  let jpeg_files := folder.files.filter lowerEndsWithJpg
  let paths := jpeg_files.map (fun fl => pathJoin folder.dir fl)
  let tag_data := paths.map et
  if (tag_data.map (fun td => pyGetTV td "EXIF:CreateDate")).contains none then
    .error (.runtimeError "files missing EXIF:CreateDate tag")
  else if (tag_data.map (fun td => pyGetTV td "MakerNotes:Sequence")).contains none then
    .error (.runtimeError "files missing MakerNotes:Sequence tag")
  else
    match exMapM (fun td =>
        match pyGetTV td "EXIF:CreateDate" with
        | some v =>
          match asStr v with
          | .error e => .error e
          | .ok str =>
            match strptimeExif str with
            | some dt => .ok dt
            | none => .error PyErr.valueError
        | none => .error PyErr.keyError) tag_data with
    | .error e => .error e
    | .ok cds =>
      match exMapM (fun td =>
          match pyGetTV td "MakerNotes:Sequence" with
          | some v =>
            match asStr v with
            | .error e => .error e
            | .ok str =>
              match (pySplitWs str).head? with
              | some x => .ok ("_" ++ x)
              | none => .error PyErr.indexError
          | none => .error PyErr.keyError) tag_data with
      | .error e => .error e
      | .ok seqs =>
        let new_name := (cds.zip seqs).map (fun p =>
          location ++ "_" ++ strftimeYmdHMS p.1 ++ p.2 ++ ".jpg")
        match cds with
        | [] => .error PyErr.valueError
        | d0 :: drest => .ok (paths.zip new_name, pyMin1 d0 drest)

/-- The result of `gather_deployment_files`. -/
structure Gathered where
  files : List (String × String)
  date : PyDateTime
  location : String
  calib : Bool
deriving DecidableEq, Repr

/-- The folder loop of `gather_deployment_files` (lines 379–387): process
each input folder in order, prefix calibration destinations with `CALIB/`,
collect the per-folder earliest dates and the source–destination pairs. -/
def collectFolders (et : String → ExifDict) (location : String) :
    List (SrcFolder × Bool) → Except PyErr (List (String × String) × List PyDateTime)
  | [] => .ok ([], [])
  | (f, isCalib) :: rest =>
    match process_folder et f location with
    | .error e => .error e
    | .ok (these, d) =>
      let these := if isCalib then these.map (fun p => (p.1, pathJoin "CALIB" p.2)) else these
      match collectFolders et location rest with
      | .error e => .error e
      | .ok (fs, ds) => .ok (these ++ fs, d :: ds)

/-- Function `gather_deployment_files` (`safe_camera_trap_tools.py` lines 343–396).
The existence check on the directories (`os.path.isdir`) is a filesystem
precondition outside the embedding; folders are supplied as data.  The
duplicate-directory check, the folder loop, the collision check on the new
names and the final record mirror the source. -/
def gather_deployment_files (et : String → ExifDict) (image_dirs : List SrcFolder)
    (calib_dirs : List SrcFolder) (location : String) : Except PyErr Gathered :=
  let input_dirs := image_dirs ++ calib_dirs
  if (input_dirs.map (fun f => f.dir)).dedup.length < input_dirs.length then
    .error (.ioError "Same folder in both image and calibration directory lists")
  else
    match collectFolders et location
        (image_dirs.map (fun f => (f, false)) ++ calib_dirs.map (fun f => (f, true))) with
    | .error e => .error e
    | .ok (files, dates) =>
      let all_new_file_names := files.map (fun f => f.2)
      if all_new_file_names.dedup.length < all_new_file_names.length then
        .error (.runtimeError "Duplication found in new image names.")
      else
        match dates with
        | [] => .error PyErr.valueError
        | d0 :: drest =>
          .ok { files := files, date := pyMin1 d0 drest, location := location,
                calib := decide (calib_dirs ≠ []) }

/-- A filesystem effect issued by `create_deployment`. -/
inductive FsEffect where
  | mkdir (path : String)
  | copy (src : String) (dst : String)
deriving DecidableEq, Repr

/-- Function `create_deployment` (`safe_camera_trap_tools.py` lines 399–453).  The
filesystem state is an input: `rootIsDir` is `os.path.isdir(output_root)`
and `existing` the set of paths for which `os.path.exists` holds.  All
checks precede every directory creation and file copy in the source, so the
error cases carry no effects; on success the effect list holds the `mkdir`
calls followed by one `copy` per gathered file in order (the per-file EXIF
`PreservedFileName` write is part of the copy collaborator).  `abspath` is
modelled as the plain join. -/
def create_deployment (g : Gathered) (output_root : String) (rootIsDir : Bool)
    (existing : List String) : Except PyErr (String × List FsEffect) :=
  if !rootIsDir then .error (.ioError "Output root directory not found")
  else
    let outdir := g.location ++ "_" ++ strftimeYmd g.date
    let outdir := pathJoin output_root outdir
    if existing.contains outdir then
      .error (.ioError "Output directory already exists")
    else
      let mk := [FsEffect.mkdir outdir] ++
        (if g.calib then [FsEffect.mkdir (pathJoin outdir "CALIB")] else [])
      let copies := g.files.map (fun p => FsEffect.copy p.1 (pathJoin outdir p.2))
      .ok (outdir, mk ++ copies)

/-- The `_process_deployment_cli` pipeline (lines 720–722): gather, then
commit.  A fatal error in either stage propagates and no effect is issued. -/
def run_process (et : String → ExifDict) (image_dirs calib_dirs : List SrcFolder)
    (location output_root : String) (rootIsDir : Bool) (existing : List String) :
    Except PyErr (String × List FsEffect) :=
  match gather_deployment_files et image_dirs calib_dirs location with
  | .error e => .error e
  | .ok g => create_deployment g output_root rootIsDir existing

/-- Whether a year is a leap year, proleptic Gregorian. -/
def leapYear (y : Nat) : Bool := (y % 4 = 0 && y % 100 ≠ 0) || y % 400 = 0

/-- Days before the first of month `m` in a year of the given leapness. -/
def daysBeforeMonth (m : Nat) (leap : Bool) : Nat :=
  ([0, 31, 59, 90, 120, 151, 181, 212, 243, 273, 304, 334].getD (m - 1) 0) +
    (if leap && 2 < m then 1 else 0)

/-- Proleptic Gregorian ordinal of a date (day 1 = 0001-01-01). -/
def dateOrdinal (y m d : Nat) : Nat :=
  let yp := y - 1
  365 * yp + yp / 4 + yp / 400 + daysBeforeMonth m (leapYear y) + d - yp / 100

/-- Seconds of a datetime against the proleptic epoch. -/
def toEpochSeconds (t : PyDateTime) : Int :=
  86400 * (dateOrdinal t.year t.month t.day : Int) +
    3600 * t.hour + 60 * t.minute + t.second

/-- Python `(a - b).days` of a datetime difference (floor, as `timedelta` does). -/
def daysBetween (a b : PyDateTime) : Int :=
  Int.fdiv (toEpochSeconds a - toEpochSeconds b) 86400

/-- A value of the `folder_data` summary dictionary of `validate_folder`. -/
inductive PyData where
  | vlist (l : List (Option TagVal))
  | dt (d : PyDateTime)
  | num (n : Int)
deriving DecidableEq, Repr

/-- The dictionary returned by `validate_folder`: the no-images early return
carries only `issues` (absent keys are `none`). -/
structure FolderResult where
  issues : List String
  folderData : Option (List (String × PyData)) := none
  imageData : Option (List (String × List (Option TagVal))) := none
  otherFiles : Option (List String) := none
  imageDir : Option String := none
  keywordTags : Option (List String) := none
deriving DecidableEq, Repr

/-- The image names of a validation result: the `'file'` entry of
`image_data`, empty when absent (the early return). -/
def FolderResult.images (r : FolderResult) : List String :=
  match r.imageData with
  | none => []
  | some d =>
    match pyGet d "file" with
    | some col => col.filterMap (fun v =>
        match v with
        | some (.s x) => some x
        | _ => none)
    | none => []

/-- The `target_tags` list of `validate_folder` (lines 193–198). -/
def targetTags : List String :=
  ["EXIF:Make", "EXIF:Model", "MakerNotes:SerialNumber", "Calib",
   "MakerNotes:FirmwareDate", "File:ImageHeight", "File:ImageWidth",
   "File:FileName", "EXIF:CreateDate", "EXIF:ExposureTime", "EXIF:ISO",
   "EXIF:Flash", "MakerNotes:InfraredIlluminator", "MakerNotes:MotionSensitivity",
   "MakerNotes:AmbientTemperature", "EXIF:SceneCaptureType",
   "MakerNotes:Sequence", "MakerNotes:TriggerMode", "IPTC:Keywords"]

/-- The file-name sequence fallback of `validate_folder` (lines 318–320):
`file_sequence = [regex.search(im) for im in images]` followed by
`[f[0] if fl is not None else None for fl in file_sequence]` — the second
comprehension tests `fl` but indexes the undefined name `f`, so the first
match raises `NameError`; with no match anywhere it completes with all
`None`. -/
def fileSequenceFallback (images : List String) : Except PyErr (List (Option String)) :=
  let file_sequence := images.map burstSearch
  exMapM (fun fl =>
    if fl.isSome then .error PyErr.nameError
    else .ok (none : Option String)) file_sequence

/-- Function `validate_folder` (`safe_camera_trap_tools.py` lines 151–340), over the
directory listing `files` and the exiftool collaborator `et`.  Issues are
accumulated in source order; `set(...)` is `List.dedup`; the iteration order
of the keyword-tag set is its first-occurrence order. -/
def validate_folder (et : String → ExifDict) (image_dir : String) (files : List String) :
    Except PyErr FolderResult :=
  let images := files.filter lowerEndsWithJpg
  let other_files := (files.filter (fun f => !lowerEndsWithJpg f)).dedup
  let issues : List String := if other_files ≠ [] then ["extra_files"] else []
  if images = [] then .ok { issues := issues ++ ["no_images"] }
  else
    let exifRaw := images.map (fun im => et (pathJoin image_dir im))
    let tagPairs := simplifyPairs targetTags
    let exif := exifRaw.map (fun entry =>
      tagPairs.map (fun p => (p.2, pyGetTV entry p.1)))
    let n_exif := exif.length
    let shortKeys := (exif.headD []).map (fun p => p.1)
    let columns : List (String × List (Option TagVal)) :=
      shortKeys.map (fun k => (k, exif.map (fun dic => (pyGet dic k).join)))
    -- Step 2: keyword extraction
    let kwColRaw := (pyGet columns "Keywords").getD []
    let step2 : Except PyErr (List String × List (String × List (Option TagVal))) :=
      if !(pyGet columns "Keywords").isSome || kwColRaw.filterMap id = [] then
        .ok (issues ++ ["no_keywords"], columns)
      else
        let issues := if kwColRaw.contains none then issues ++ ["missing_keywords"] else issues
        match exMapM convert_keywords kwColRaw with
        | .error e => .error e
        | .ok conv =>
          .ok (issues, pySet columns "Keywords" (conv.map (fun d => some (TagVal.kw d))))
    match step2 with
    | .error e => .error e
    | .ok (issues, columns) =>
      let kwColNow := (pyGet columns "Keywords").getD []
      match exMapM (fun v =>
          match v with
          | some (.kw d) => .ok (d.map (fun p => p.1))
          | _ => .error PyErr.attributeError) kwColNow with
      | .error e => .error e
      | .ok kwKeyLists =>
        let keyword_tags := kwKeyLists.flatten.dedup
        let columns := keyword_tags.foldl (fun cols tg =>
          pySet cols tg (kwColNow.map (fun v =>
            match v with
            | some (.kw d) => (pyGet d tg).map TagVal.s
            | _ => none))) columns
        let columns := pyDel columns "Keywords"
        -- Step 3: folder-level checks
        let camera_fields := ["Make", "Model", "SerialNumber", "FirmwareDate",
                              "ImageHeight", "ImageWidth"]
        let folder_data : List (String × PyData) :=
          camera_fields.map (fun fld => (fld, PyData.vlist ((pyGet columns fld).getD []).dedup))
        let issues := if folder_data.any (fun p =>
            match p.2 with
            | .vlist x => 1 < x.length
            | _ => false) then issues ++ ["camera_data_inconsistent"] else issues
        let issues := if ((folder_data.map (fun p =>
            match p.2 with
            | .vlist x => x
            | _ => [])).flatten).contains none then
            issues ++ ["camera_data_incomplete"] else issues
        let locStep : List String × List (String × PyData) :=
          if (pyGet columns "Tag_15").isNone then (issues ++ ["no_locations"], folder_data)
          else
            let tag_loc := ((pyGet columns "Tag_15").getD []).dedup
            let step : List String × List (Option TagVal) :=
              if tag_loc.contains none then
                (issues ++ ["missing_locations"], tag_loc.filter (fun v => v.isSome))
              else (issues, tag_loc)
            let issues := step.1
            let tag_loc := step.2
            let issues := if 1 < tag_loc.length then issues ++ ["locations_inconsistent"]
              else issues
            (issues, folder_data ++ [("location", PyData.vlist tag_loc)])
        let issues := locStep.1
        let folder_data := locStep.2
        -- Step 4a: dates
        let dateStep : Except PyErr (List String × List (String × PyData)) :=
          if (pyGet columns "CreateDate").isNone ||
              ((pyGet columns "CreateDate").getD []).filterMap id = [] then
            .ok (issues ++ ["no_dates"], folder_data)
          else
            match exMapM (fun v =>
                match v with
                | none => .ok (none : Option PyDateTime)
                | some (.s str) =>
                  match strptimeExif str with
                  | some dt => .ok (some dt)
                  | none => .error PyErr.valueError
                | some _ => .error PyErr.typeError) ((pyGet columns "CreateDate").getD []) with
            | .error e => .error e
            | .ok image_dates =>
              let only_dates := image_dates.filterMap id
              let issues := if only_dates.length < n_exif then issues ++ ["missing_dates"]
                else issues
              match only_dates with
              | [] => .error PyErr.valueError
              | d0 :: drest =>
                let start_dt := pyMin1 d0 drest
                let end_dt := pyMax1 d0 drest
                let n_days := daysBetween end_dt start_dt + 1
                .ok (issues, folder_data ++
                  [("start", PyData.dt start_dt), ("end", PyData.dt end_dt),
                   ("n_days", PyData.num n_days)])
        match dateStep with
        | .error e => .error e
        | .ok (issues, folder_data) =>
          -- Step 4b: sequence resolution
          let seqColRaw := (pyGet columns "Sequence").getD []
          match (if (pyGet columns "Sequence").isSome then
              exMapM (fun v =>
                match v with
                | none => .ok (none : Option String)
                | some (.s str) =>
                  match (pySplitWs str).head? with
                  | some x => .ok (some x)
                  | none => .error PyErr.indexError
                | some _ => .error PyErr.attributeError) seqColRaw
            else .ok (List.replicate n_exif none)) with
          | .error e => .error e
          | .ok exif_sequence =>
            match (if !(pyGet columns "Sequence").isSome || seqColRaw.contains none then
                fileSequenceFallback images
              else .ok (List.replicate n_exif (none : Option String))) with
            | .error e => .error e
            | .ok file_sequence =>
              let seqMerged := (exif_sequence.zip file_sequence).map (fun p =>
                if p.1.isSome then p.1 else p.2)
              let columns := pySet columns "Sequence" (seqMerged.map (fun o => o.map TagVal.s))
              let issues := if seqMerged.contains none then issues ++ ["missing_sequence"]
                else issues
              let folder_data := folder_data ++ [("n_images", PyData.num n_exif)]
              let columns := pySet columns "file" (images.map (fun im => some (TagVal.s im)))
              .ok { issues := issues, folderData := some folder_data,
                    imageData := some columns, otherFiles := some other_files,
                    imageDir := some image_dir, keywordTags := some keyword_tags }

/-- Modelled from the spec: the location-resolution rules of the Deployment
Gatherer (spec §4.4).  The implementation — the `Deployment.check_compilable`
method consumed by `example_scripts/chapman_deployments.py` — is not in the
repository snapshot; only that caller is.  `embedded` are the per-folder
location-tag values (null when a folder has none), `hint` the optional
caller-supplied location.  Rules in order: more than one distinct non-null
embedded value is fatal even with a hint; one value conflicting with the
hint is fatal naming both; one value with no hint (or an agreeing hint) is
adopted; no value falls back to the hint, and is fatal without one. -/
def resolveLocation (embedded : List (Option String)) (hint : Option String) :
    Except String String :=
  match (embedded.filterMap id).dedup, hint with
  | [], none => .error "no location available"
  | [], some h => .ok h
  | [v], none => .ok v
  | [v], some h =>
    if v = h then .ok v
    else .error ("file location " ++ v ++ " does not match provided location " ++ h)
  | _ :: _ :: _, _ => .error "locations inconsistent across folders"

/-- Modelled from the spec: step 4 of the Sequence Resolver (spec §4.2).
The implementation — part of the `Deployment` class missing from the
snapshot — assigns synthetic sequence values `X1, X2, …` in original scan
order to the records of one identical-timestamp group whose sequence is
still unresolved after the metadata and file-name steps, keeping resolved
values unchanged.  `n` counts the synthetics already assigned. -/
def assignSyntheticGo (n : Nat) : List (Option String) → List String
  | [] => []
  | some s :: rest => s :: assignSyntheticGo n rest
  | none :: rest => ("X" ++ natDec (n + 1)) :: assignSyntheticGo (n + 1) rest

/-- Modelled from the spec: synthetic sequence assignment over one timestamp
group, in stable original scan order (spec §4.2 step 4). -/
def assignSynthetic (group : List (Option String)) : List String :=
  assignSyntheticGo 0 group

/-- The synthetic values a group received, in scan order: the outputs at the
positions whose input was unresolved. -/
def syntheticsOf (group : List (Option String)) : List String :=
  ((group.zip (assignSynthetic group)).filter (fun p => p.1 = none)).map (fun p => p.2)

/-- Numeric value of a decimal digit string (most significant first); the
abstraction used to prove `natDec` injective. -/
def charsVal (l : List Char) : Nat := l.foldl (fun a c => 10 * a + chVal c) 0

/-! ## Concrete fixtures

Exiftool responses for the concrete runs used by the evaluation theorems and
witnesses below. -/

/-- Three burst images, `Sequence` tags `'1 3'`, `'2 3'`, `'3 3'`, one shared
timestamp (the spec scenario for destination naming). -/
def c1Et : String → ExifDict := fun p =>
  if p = "src1/a.jpg" then
    [("EXIF:CreateDate", .s "2024:01:05 10:00:00"), ("MakerNotes:Sequence", .s "1 3")]
  else if p = "src1/b.jpg" then
    [("EXIF:CreateDate", .s "2024:01:05 10:00:00"), ("MakerNotes:Sequence", .s "2 3")]
  else if p = "src1/c.jpg" then
    [("EXIF:CreateDate", .s "2024:01:05 10:00:00"), ("MakerNotes:Sequence", .s "3 3")]
  else []

/-- One dated image in folder `f1`; folder `f2` is empty. -/
def c5Et : String → ExifDict := fun p =>
  if p = "f1/a.jpg" then
    [("EXIF:CreateDate", .s "2024:01:05 10:00:00"), ("MakerNotes:Sequence", .s "1 3")]
  else []

/-- Two folders holding images with identical timestamp and sequence, so
their computed destination names collide. -/
def c2Et : String → ExifDict := fun p =>
  if p = "g1/a.jpg" || p = "g2/a.jpg" then
    [("EXIF:CreateDate", .s "2024:01:05 10:00:00"), ("MakerNotes:Sequence", .s "1 3")]
  else []

/-- A folder whose images lack the `Sequence` tag while one file name
matches the burst pattern `'\d+ of \d+'`. -/
def c10Et : String → ExifDict := fun p =>
  if p = "d/01 of 02.jpg" then
    [("IPTC:Keywords", .ls ["15: SITE-A"]), ("EXIF:CreateDate", .s "2024:01:05 10:00:00")]
  else if p = "d/plain.jpg" then
    [("IPTC:Keywords", .ls ["15: SITE-A"]), ("EXIF:CreateDate", .s "2024:01:05 10:00:01")]
  else []

/-! ## Helper lemmas -/

theorem charsVal_append_digit (l : List Char) (c : Char) :
    charsVal (l ++ [c]) = 10 * charsVal l + chVal c := by
  unfold charsVal
  rw [List.foldl_append]
  rfl

theorem chVal_digitChar (n : Nat) (h : n < 10) : chVal (Nat.digitChar n) = n := by
  interval_cases n <;> rfl

theorem charsVal_natDecAux : ∀ fuel n, n < fuel → charsVal (natDecAux fuel n) = n := by
  intro fuel
  induction fuel with
  | zero => intro n h; omega
  | succ f ih =>
    intro n h
    by_cases h10 : n < 10
    · simp only [natDecAux, if_pos h10]
      unfold charsVal
      simp [chVal_digitChar n h10]
    · simp only [natDecAux, if_neg h10]
      rw [charsVal_append_digit, ih (n / 10) (by omega),
        chVal_digitChar (n % 10) (by omega)]
      omega

theorem natDec_inj {m n : Nat} (h : natDec m = natDec n) : m = n := by
  have hd : natDecAux (m + 1) m = natDecAux (n + 1) n := congrArg String.data h
  have hm := charsVal_natDecAux (m + 1) m (by omega)
  have hn := charsVal_natDecAux (n + 1) n (by omega)
  rw [← hm, ← hn, hd]

/-! ## Claim theorems -/

/-- Claim C1.  The claim states that `_process_folder` computes every
destination name as `{location}_{timestamp:%Y%m%d_%H%M%S}_{sequence}.jpg`
with `sequence` the leading numeric token of the `'n total'` metadata tag.
The canonical module violates this: `safe_camera_trap_tools._process_folder`
(line 105) appends the raw tag value with no separating underscore and no
`split()`, producing `SITE-A_20240105_1000001 3.jpg` on the spec scenario;
the sibling `process_deployment._process_folder` (lines 75–77) produces the
claimed `SITE-A_20240105_100000_1.jpg`, showing the intent.  The code is the
slip; the claim matches the spec, the sibling implementation, and the
`'n N'`-format splitting done by `validate_folder` (line 312). -/
theorem C1_destination_naming_bug :
    process_folder c1Et ⟨"src1", ["a.jpg", "b.jpg", "c.jpg"]⟩ "SITE-A" =
      .ok ([("src1/a.jpg", "SITE-A_20240105_1000001 3.jpg"),
            ("src1/b.jpg", "SITE-A_20240105_1000002 3.jpg"),
            ("src1/c.jpg", "SITE-A_20240105_1000003 3.jpg")], ⟨2024, 1, 5, 10, 0, 0⟩) ∧
    process_folder_pd c1Et ⟨"src1", ["a.jpg", "b.jpg", "c.jpg"]⟩ "SITE-A" =
      .ok ([("src1/a.jpg", "SITE-A_20240105_100000_1.jpg"),
            ("src1/b.jpg", "SITE-A_20240105_100000_2.jpg"),
            ("src1/c.jpg", "SITE-A_20240105_100000_3.jpg")], ⟨2024, 1, 5, 10, 0, 0⟩) ∧
    ("SITE-A_20240105_1000001 3.jpg" : String) ≠ "SITE-A_20240105_100000_1.jpg" :=
  ⟨rfl, rfl, by decide⟩

/-- Claim C5.  The claim states the plan date is the earliest parsed
creation timestamp across all images and in particular is never influenced
by image-free constituent folders.  The code violates the latter:
`_process_folder` returns the sentinel `datetime(1, 1, 1)` for an empty
folder (line 114) and `gather_deployment_files` takes `min(dates)` over the
per-folder results (line 395), so an empty folder drags the plan date to
year 1 — contradicting the gather docstring (`the earliest recorded image
creation date in the image files`) and mis-naming the deployment directory.
Gathering `f1` alone dates the plan 2024-01-05; adding the image-free `f2`
changes it to 0001-01-01. -/
theorem C5_min_date_empty_folder_bug :
    gather_deployment_files c5Et [⟨"f1", ["a.jpg"]⟩] [] "SITE-A" =
      .ok { files := [("f1/a.jpg", "SITE-A_20240105_1000001 3.jpg")],
            date := ⟨2024, 1, 5, 10, 0, 0⟩, location := "SITE-A", calib := false } ∧
    gather_deployment_files c5Et [⟨"f1", ["a.jpg"]⟩, ⟨"f2", []⟩] [] "SITE-A" =
      .ok { files := [("f1/a.jpg", "SITE-A_20240105_1000001 3.jpg")],
            date := ⟨1, 1, 1, 0, 0, 0⟩, location := "SITE-A", calib := false } ∧
    (⟨1, 1, 1, 0, 0, 0⟩ : PyDateTime) ≠ ⟨2024, 1, 5, 10, 0, 0⟩ :=
  ⟨rfl, rfl, by decide⟩

/-- Claim C3.  The ordered location-resolution rules of the gather step,
settled against the spec-modelled `resolveLocation` (the implementing
`Deployment.check_compilable` is not in the snapshot): more than one
distinct non-null embedded value is fatal even with a hint; exactly one
value differing from the hint is fatal naming both; exactly one value with
no hint is adopted; no value and no hint is fatal; no value with a hint
adopts the hint. -/
theorem C3_location_resolution (embedded : List (Option String))
    (hint : Option String) (v h : String) :
    (2 ≤ (embedded.filterMap id).dedup.length →
      resolveLocation embedded hint = .error "locations inconsistent across folders") ∧
    ((embedded.filterMap id).dedup = [v] → v ≠ h →
      resolveLocation embedded (some h) =
        .error ("file location " ++ v ++ " does not match provided location " ++ h)) ∧
    ((embedded.filterMap id).dedup = [v] → resolveLocation embedded none = .ok v) ∧
    ((embedded.filterMap id).dedup = [] →
      resolveLocation embedded none = .error "no location available") ∧
    ((embedded.filterMap id).dedup = [] → resolveLocation embedded (some h) = .ok h) := by
  refine ⟨?_, ?_, ?_, ?_, ?_⟩
  · intro hlen
    unfold resolveLocation
    match hd : (embedded.filterMap id).dedup, hint with
    | [], _ => rw [hd] at hlen; simp at hlen
    | [x], _ => rw [hd] at hlen; simp at hlen
    | x :: y :: rest, none => rfl
    | x :: y :: rest, some hh => rfl
  · intro hd hne
    unfold resolveLocation
    rw [hd]
    simp [hne]
  · intro hd
    unfold resolveLocation
    rw [hd]
  · intro hd
    unfold resolveLocation
    rw [hd]
  · intro hd
    unfold resolveLocation
    rw [hd]

/-- Witness for C3: each rule discharged on a concrete folder set —
a `SITE-A`/`SITE-B` conflict is fatal despite a hint, a lone `SITE-A`
among location-free folders is adopted without a hint, a hint conflicting
with a lone `SITE-A` is fatal, no data at all is fatal, and a hint alone is
adopted. -/
theorem C3_location_resolution_witness :
    resolveLocation [some "SITE-A", some "SITE-B"] (some "SITE-C") =
      .error "locations inconsistent across folders" ∧
    resolveLocation [some "SITE-A", none, some "SITE-A"] none = .ok "SITE-A" ∧
    resolveLocation [some "SITE-A"] (some "SITE-B") =
      .error "file location SITE-A does not match provided location SITE-B" ∧
    resolveLocation [none, none] none = .error "no location available" ∧
    resolveLocation [none] (some "SITE-A") = .ok "SITE-A" :=
  ⟨(C3_location_resolution [some "SITE-A", some "SITE-B"] (some "SITE-C") "" "").1
      (by decide),
   (C3_location_resolution [some "SITE-A", none, some "SITE-A"] none "SITE-A" "").2.2.1
      (by decide),
   (C3_location_resolution [some "SITE-A"] none "SITE-A" "SITE-B").2.1
      (by decide) (by decide),
   (C3_location_resolution [none, none] none "" "").2.2.2.1 (by decide),
   (C3_location_resolution [none] none "" "SITE-A").2.2.2.2 (by decide)⟩

theorem assignSyntheticGo_length : ∀ (n : Nat) (group : List (Option String)),
    (assignSyntheticGo n group).length = group.length
  | _, [] => rfl
  | n, some s :: rest => by
    simp [assignSyntheticGo, assignSyntheticGo_length n rest]
  | n, none :: rest => by
    simp [assignSyntheticGo, assignSyntheticGo_length (n + 1) rest]

theorem assignSyntheticGo_resolved : ∀ (n : Nat) (group : List (Option String)),
    ∀ p ∈ group.zip (assignSyntheticGo n group), ∀ s, p.1 = some s → p.2 = s := by
  intro n group
  induction group generalizing n with
  | nil => intro p hp; simp at hp
  | cons o rest ih =>
    intro p hp s hps
    match o with
    | some v =>
      simp only [assignSyntheticGo, List.zip_cons_cons, List.mem_cons] at hp
      rcases hp with h | h
      · subst h; cases hps; rfl
      · exact ih n p h s hps
    | none =>
      simp only [assignSyntheticGo, List.zip_cons_cons, List.mem_cons] at hp
      rcases hp with h | h
      · subst h; cases hps
      · exact ih (n + 1) p h s hps

theorem synthGo_filter : ∀ (group : List (Option String)) (n : Nat),
    ((group.zip (assignSyntheticGo n group)).filter (fun p => p.1 = none)).map
        (fun p => p.2) =
      (List.range (group.countP (fun o => o.isNone))).map
        (fun j => "X" ++ natDec (n + j + 1)) := by
  intro group
  induction group with
  | nil => intro n; rfl
  | cons o rest ih =>
    intro n
    match o with
    | some v =>
      simp only [assignSyntheticGo, List.zip_cons_cons]
      rw [List.filter_cons_of_neg (by simp)]
      have hc : List.countP (fun o => o.isNone) (some v :: rest) =
          List.countP (fun o => o.isNone) rest := by simp [List.countP_cons]
      rw [hc]
      exact ih n
    | none =>
      simp only [assignSyntheticGo, List.zip_cons_cons]
      rw [List.filter_cons_of_pos (by simp)]
      have hc : List.countP (fun o => o.isNone) (none :: rest) =
          List.countP (fun o => o.isNone) rest + 1 := by simp [List.countP_cons]
      rw [hc]
      simp only [List.map_cons]
      rw [ih (n + 1), List.range_succ_eq_map, List.map_cons, List.map_map]
      refine congrArg₂ _ rfl (congrArg₂ _ ?_ rfl)
      funext j
      simp only [Function.comp]
      refine congrArg _ (congrArg _ ?_)
      omega

theorem xLabel_inj {a b : Nat} (h : ("X" ++ natDec a : String) = "X" ++ natDec b) :
    a = b := by
  have hd : ("X" ++ natDec a).data = ("X" ++ natDec b).data := congrArg String.data h
  simp only [String.data_append] at hd
  have := List.append_cancel_left hd
  exact natDec_inj (String.ext this)

theorem affix_inj (pre post : String) {a b : String}
    (h : pre ++ a ++ post = pre ++ b ++ post) : a = b := by
  have hd := congrArg String.data h
  simp only [String.data_append] at hd
  exact String.ext (List.append_cancel_left (List.append_cancel_right hd))

theorem assignSyntheticGo_replicate : ∀ (n m : Nat),
    assignSyntheticGo m (List.replicate n none) =
      (List.range n).map (fun j => "X" ++ natDec (m + j + 1)) := by
  intro n
  induction n with
  | zero => intro m; rfl
  | succ k ih =>
    intro m
    simp only [List.replicate_succ, assignSyntheticGo]
    rw [ih (m + 1), List.range_succ_eq_map, List.map_cons, List.map_map]
    refine congrArg₂ _ (congrArg _ (congrArg _ (by omega))) (congrArg₂ _ ?_ rfl)
    funext j
    simp only [Function.comp]
    refine congrArg _ (congrArg _ ?_)
    omega

/-- Claim C4.  Settled against the spec-modelled synthetic-sequence step
(spec §4.2 step 4; the implementing `Deployment` class is not in the
snapshot).  Over one identical-timestamp group: output length is preserved,
resolved records keep their sequence, the unresolved records receive exactly
`X1, X2, …, Xn` in stable scan order (`n` the number of unresolved records),
no two of them receive the same synthetic value, and for a group with no
metadata-resolved sequence at all the resulting destination names (any
common prefix and suffix around the sequence) are pairwise distinct. -/
theorem C4_synthetic_sequences (group : List (Option String)) (n : Nat)
    (pre post : String) :
    (assignSynthetic group).length = group.length ∧
    (∀ p ∈ group.zip (assignSynthetic group), ∀ s, p.1 = some s → p.2 = s) ∧
    syntheticsOf group =
      (List.range (group.countP (fun o => o.isNone))).map
        (fun j => "X" ++ natDec (j + 1)) ∧
    (syntheticsOf group).Nodup ∧
    ((assignSynthetic (List.replicate n none)).map
        (fun s => pre ++ s ++ post)).Nodup := by
  have hchar : syntheticsOf group =
      (List.range (group.countP (fun o => o.isNone))).map
        (fun j => "X" ++ natDec (j + 1)) := by
    unfold syntheticsOf assignSynthetic
    rw [synthGo_filter group 0]
    refine congrArg₂ _ ?_ rfl
    funext j
    refine congrArg _ (congrArg _ ?_)
    omega
  refine ⟨assignSyntheticGo_length 0 group, assignSyntheticGo_resolved 0 group, hchar, ?_, ?_⟩
  · rw [hchar]
    refine List.Nodup.map ?_ (List.nodup_range _)
    intro a b hab
    have := xLabel_inj hab
    omega
  · unfold assignSynthetic
    rw [assignSyntheticGo_replicate n 0, List.map_map]
    refine List.Nodup.map ?_ (List.nodup_range _)
    intro a b hab
    simp only [Function.comp] at hab
    have := xLabel_inj (affix_inj pre post hab)
    omega

/-- Witness for C4: the group `[unresolved, resolved 2, unresolved]` keeps
the resolved `2` (the second conjunct applied with its hypotheses discharged)
and receives synthetics `X1`, `X2`; two simultaneous images with no sequence
information at all end as `..._X1.jpg` and `..._X2.jpg`. -/
theorem C4_synthetic_sequences_witness :
    ((some "2" : Option String), "2").2 = "2" ∧
    assignSynthetic [none, some "2", none] = ["X1", "2", "X2"] ∧
    syntheticsOf [none, some "2", none] = ["X1", "X2"] ∧
    (assignSynthetic (List.replicate 2 (none : Option String))).map
        (fun s => "SITE-A_20240105_100000_" ++ s ++ ".jpg") =
      ["SITE-A_20240105_100000_X1.jpg", "SITE-A_20240105_100000_X2.jpg"] :=
  ⟨(C4_synthetic_sequences [none, some "2", none] 2 "" "").2.1
      (some "2", "2") (by decide) "2" rfl,
   by rfl, by rfl, by rfl⟩

theorem dedup_nodup_of_not_lt {α : Type} [DecidableEq α] {l : List α}
    (h : ¬ l.dedup.length < l.length) : l.Nodup := by
  have hle := (List.dedup_sublist l).length_le
  have heq : l.dedup.length = l.length := by omega
  exact List.dedup_eq_self.mp ((List.dedup_sublist l).eq_of_length heq)

theorem dedup_lt_of_not_nodup {α : Type} [DecidableEq α] {l : List α}
    (h : ¬ l.Nodup) : l.dedup.length < l.length := by
  have hle := (List.dedup_sublist l).length_le
  rcases Nat.lt_or_ge l.dedup.length l.length with hlt | hge
  · exact hlt
  · exact absurd (dedup_nodup_of_not_lt (by omega)) h

/-- Claim C6.  In `create_deployment`, the existing-directory check precedes
every `mkdir` and file copy (lines 426–429), so a commit whose computed
deployment path already exists raises with no effect issued; and a
successful run issues exactly the deployment `mkdir` (plus the `CALIB`
`mkdir` when calibration folders are present) followed by one copy per
gathered file — the whole deployment, fully populated, or nothing.  Fatal
errors of the gather stage propagate through `run_process` before any
effect exists. -/
theorem C6_commit_all_or_nothing (g : Gathered) (output_root : String)
    (existing : List String) :
    (existing.contains
        (pathJoin output_root (g.location ++ "_" ++ strftimeYmd g.date)) = true →
      create_deployment g output_root true existing =
        .error (.ioError "Output directory already exists")) ∧
    (∀ (et : String → ExifDict) (image_dirs calib_dirs : List SrcFolder)
        (location : String) (rootIsDir : Bool) (dir : String) (effs : List FsEffect),
      run_process et image_dirs calib_dirs location output_root rootIsDir existing =
        .ok (dir, effs) →
      ∃ gg, gather_deployment_files et image_dirs calib_dirs location = .ok gg ∧
        dir = pathJoin output_root (gg.location ++ "_" ++ strftimeYmd gg.date) ∧
        effs = [FsEffect.mkdir dir] ++
          (if gg.calib then [FsEffect.mkdir (pathJoin dir "CALIB")] else []) ++
          gg.files.map (fun p => FsEffect.copy p.1 (pathJoin dir p.2))) := by
  constructor
  · intro h
    simp only [create_deployment, Bool.not_true, Bool.false_eq_true, if_false]
    rw [if_pos h]
  · intro et image_dirs calib_dirs location rootIsDir dir effs h
    unfold run_process at h
    match hg : gather_deployment_files et image_dirs calib_dirs location with
    | .error e => rw [hg] at h; exact Except.noConfusion h
    | .ok gg =>
      rw [hg] at h
      refine ⟨gg, rfl, ?_⟩
      simp only [create_deployment] at h
      by_cases hroot : rootIsDir = true
      · rw [hroot] at h
        simp only [Bool.not_true, Bool.false_eq_true, if_false] at h
        by_cases hex : existing.contains
            (pathJoin output_root (gg.location ++ "_" ++ strftimeYmd gg.date)) = true
        · rw [if_pos hex] at h; exact Except.noConfusion h
        · rw [if_neg hex] at h
          injection Except.ok.inj h with h1 h2
          exact ⟨h1.symm, by rw [← h2, ← h1]⟩
      · rw [Bool.not_eq_true] at hroot
        rw [hroot] at h
        simp only [Bool.not_false, if_true] at h
        exact Except.noConfusion h

/-- Witness for C6: committing the C5 single-folder plan into an output root
that already holds `out/SITE-A_20240105` raises before any copy, and a
successful run of the same plan against an empty root issues exactly the
`mkdir` and the one copy. -/
theorem C6_commit_all_or_nothing_witness :
    create_deployment
        { files := [("f1/a.jpg", "SITE-A_20240105_1000001 3.jpg")],
          date := ⟨2024, 1, 5, 10, 0, 0⟩, location := "SITE-A", calib := false }
        "out" true ["out/SITE-A_20240105"] =
      .error (.ioError "Output directory already exists") ∧
    (∃ gg, gather_deployment_files c5Et [⟨"f1", ["a.jpg"]⟩] [] "SITE-A" = .ok gg ∧
      "out/SITE-A_20240105" =
        pathJoin "out" (gg.location ++ "_" ++ strftimeYmd gg.date) ∧
      [FsEffect.mkdir "out/SITE-A_20240105",
       FsEffect.copy "f1/a.jpg" "out/SITE-A_20240105/SITE-A_20240105_1000001 3.jpg"] =
        [FsEffect.mkdir "out/SITE-A_20240105"] ++
          (if gg.calib then [FsEffect.mkdir (pathJoin "out/SITE-A_20240105" "CALIB")] else []) ++
          gg.files.map (fun p =>
            FsEffect.copy p.1 (pathJoin "out/SITE-A_20240105" p.2))) :=
  ⟨(C6_commit_all_or_nothing
      { files := [("f1/a.jpg", "SITE-A_20240105_1000001 3.jpg")],
        date := ⟨2024, 1, 5, 10, 0, 0⟩, location := "SITE-A", calib := false }
      "out" ["out/SITE-A_20240105"]).1 (by decide),
   (C6_commit_all_or_nothing
      { files := [("f1/a.jpg", "SITE-A_20240105_1000001 3.jpg")],
        date := ⟨2024, 1, 5, 10, 0, 0⟩, location := "SITE-A", calib := false }
      "out" []).2 c5Et [⟨"f1", ["a.jpg"]⟩] [] "SITE-A" true
      "out/SITE-A_20240105"
      [FsEffect.mkdir "out/SITE-A_20240105",
       FsEffect.copy "f1/a.jpg" "out/SITE-A_20240105/SITE-A_20240105_1000001 3.jpg"]
      (by rfl)⟩

/-- Claim C2.  Every plan returned by `gather_deployment_files` has pairwise
distinct destination names (the collision check at lines 389–392 passed),
and when the computed names do contain a duplicate the gather raises
`RuntimeError('Duplication found in new image names.')`, so the pipeline
errors out and no deployment directory or file effect exists for that run. -/
theorem C2_destination_uniqueness (et : String → ExifDict)
    (image_dirs calib_dirs : List SrcFolder) (location : String) :
    (∀ g, gather_deployment_files et image_dirs calib_dirs location = .ok g →
      (g.files.map (fun f => f.2)).Nodup) ∧
    (∀ files dates,
      collectFolders et location
          (image_dirs.map (fun f => (f, false)) ++ calib_dirs.map (fun f => (f, true))) =
        .ok (files, dates) →
      ((image_dirs ++ calib_dirs).map (fun f => f.dir)).Nodup →
      ¬ (files.map (fun f => f.2)).Nodup →
      ∀ (output_root : String) (rootIsDir : Bool) (existing : List String),
        run_process et image_dirs calib_dirs location output_root rootIsDir existing =
          .error (.runtimeError "Duplication found in new image names.")) := by
  constructor
  · intro g hg
    simp only [gather_deployment_files] at hg
    by_cases hdirs : (((image_dirs ++ calib_dirs).map (fun f => f.dir)).dedup).length <
        (image_dirs ++ calib_dirs).length
    · rw [if_pos hdirs] at hg; exact Except.noConfusion hg
    · rw [if_neg hdirs] at hg
      match hc : collectFolders et location
          (image_dirs.map (fun f => (f, false)) ++ calib_dirs.map (fun f => (f, true))) with
      | .error e => rw [hc] at hg; exact Except.noConfusion hg
      | .ok (files, dates) =>
        rw [hc] at hg
        simp only [] at hg
        by_cases hdup : ((files.map (fun f => f.2)).dedup).length <
            (files.map (fun f => f.2)).length
        · rw [if_pos hdup] at hg; exact Except.noConfusion hg
        · rw [if_neg hdup] at hg
          match dates with
          | [] => exact Except.noConfusion hg
          | d0 :: drest =>
            have hgf := Except.ok.inj hg
            subst hgf
            exact dedup_nodup_of_not_lt hdup
  · intro files dates hc hdirs hdup output_root rootIsDir existing
    simp only [run_process, gather_deployment_files]
    have hdirs2 : ¬ (((image_dirs ++ calib_dirs).map (fun f => f.dir)).dedup).length <
        (image_dirs ++ calib_dirs).length := by
      have h1 : ((image_dirs ++ calib_dirs).map (fun f => f.dir)).dedup.length =
          ((image_dirs ++ calib_dirs).map (fun f => f.dir)).length := by
        rw [List.dedup_eq_self.mpr hdirs]
      have h2 : ((image_dirs ++ calib_dirs).map (fun f => f.dir)).length =
          (image_dirs ++ calib_dirs).length := List.length_map _ _
      omega
    rw [if_neg hdirs2, hc]
    simp only []
    rw [if_pos (dedup_lt_of_not_nodup hdup)]

/-- Witness for C2: the plan of the single folder `g1` gathers with distinct
names, while adding `g2` (whose lone image shares timestamp and sequence)
collides and makes the whole pipeline raise the duplication error with no
effect produced. -/
theorem C2_destination_uniqueness_witness :
    ([("g1/a.jpg", "SITE-A_20240105_1000001 3.jpg")].map (fun f => f.2)).Nodup ∧
    run_process c2Et [⟨"g1", ["a.jpg"]⟩, ⟨"g2", ["a.jpg"]⟩] [] "SITE-A" "out" true [] =
      .error (.runtimeError "Duplication found in new image names.") :=
  ⟨(C2_destination_uniqueness c2Et [⟨"g1", ["a.jpg"]⟩] [] "SITE-A").1
      { files := [("g1/a.jpg", "SITE-A_20240105_1000001 3.jpg")],
        date := ⟨2024, 1, 5, 10, 0, 0⟩, location := "SITE-A", calib := false } (by rfl),
   (C2_destination_uniqueness c2Et [⟨"g1", ["a.jpg"]⟩, ⟨"g2", ["a.jpg"]⟩] [] "SITE-A").2
      [("g1/a.jpg", "SITE-A_20240105_1000001 3.jpg"),
       ("g2/a.jpg", "SITE-A_20240105_1000001 3.jpg")]
      [⟨2024, 1, 5, 10, 0, 0⟩, ⟨2024, 1, 5, 10, 0, 0⟩]
      (by rfl) (by decide) (by decide) "out" true []⟩

theorem find?_keyed_append {α : Type} (d e : List (String × α)) (k : String) :
    ((d ++ e).find? (fun p => p.1 = k)) =
      ((d.find? (fun p => p.1 = k)).orElse (fun _ => e.find? (fun p => p.1 = k))) := by
  induction d with
  | nil => rfl
  | cons a rest ih =>
    by_cases h : a.1 = k
    · simp [List.find?, h]
    · simp only [List.cons_append, List.find?]
      rw [show (decide (a.1 = k)) = false by simp [h]]
      exact ih

theorem find?_map_replace {α : Type} (d : List (String × α)) (k : String) (v : α) :
    ((d.map (fun p => if p.1 = k then (k, v) else p)).find? (fun p => p.1 = k)) =
      (d.find? (fun p => p.1 = k)).map (fun _ => (k, v)) := by
  induction d with
  | nil => rfl
  | cons a rest ih =>
    by_cases ha : a.1 = k
    · simp [List.find?, ha]
    · simp only [List.map_cons, if_neg ha, List.find?]
      rw [show (decide (a.1 = k)) = false by simp [ha]]
      exact ih

theorem pyGet_pySet_self {α : Type} (d : List (String × α)) (k : String) (v : α) :
    pyGet (pySet d k v) k = some v := by
  unfold pySet
  by_cases h : (d.find? (fun p => p.1 = k)).isSome
  · rw [if_pos h]
    unfold pyGet
    rw [find?_map_replace]
    obtain ⟨x, hx⟩ := Option.isSome_iff_exists.mp h
    rw [hx]
    rfl
  · rw [if_neg h]
    unfold pyGet
    rw [find?_keyed_append]
    have hn : d.find? (fun p => p.1 = k) = none := by
      cases hfd : d.find? (fun p => p.1 = k) with
      | none => rfl
      | some x => rw [hfd] at h; simp at h
    rw [hn]
    simp [List.find?, Option.orElse]

theorem filterMap_tagS (l : List String) :
    ((l.map (fun im => some (TagVal.s im))).filterMap (fun v =>
      match v with
      | some (.s x) => some x
      | _ => none)) = l := by
  induction l with
  | nil => rfl
  | cons a rest ih => simp [List.filterMap_cons, ih]

/-- Claim C7, counterexample.  The claim states a directory with zero image
files yields `issues` equal to the singleton set `{"no_images"}`; but a
directory holding a lone non-image file yields
`{"extra_files", "no_images"}` — the `extra_files` flag is appended before
the no-images early return (lines 184–190). -/
theorem C7_issues_singleton_counterexample :
    validate_folder (fun _ => []) "d" ["readme.txt"] =
      .ok { issues := ["extra_files", "no_images"] } ∧
    "extra_files" ∈ (["extra_files", "no_images"] : List String) ∧
    ("extra_files" : String) ≠ "no_images" :=
  ⟨rfl, by decide, by decide⟩

/-- Claim C7, amended.  For a directory with zero image files the validator
returns immediately with empty `images` and `issues = {"no_images"}`, plus
`"extra_files"` exactly when non-image files are present; and every
successful validation result has non-empty `images` unless its `issues`
contain `"no_images"`. -/
theorem C7_no_images_amended (et : String → ExifDict) (image_dir : String)
    (files : List String) :
    (files.filter lowerEndsWithJpg = [] →
      validate_folder et image_dir files =
        .ok { issues :=
          (if (files.filter (fun f => !lowerEndsWithJpg f)).dedup ≠ [] then
            ["extra_files"] else []) ++ ["no_images"] } ∧
      (validate_folder et image_dir files).map FolderResult.images = .ok []) ∧
    (∀ r, validate_folder et image_dir files = .ok r →
      r.images ≠ [] ∨ "no_images" ∈ r.issues) := by
  constructor
  · intro himg
    constructor
    · simp only [validate_folder, himg, eq_self_iff_true, if_true]
    · simp only [validate_folder, himg, eq_self_iff_true, if_true, Except.map]
      rfl
  · intro r h
    simp only [validate_folder] at h
    by_cases himg : files.filter lowerEndsWithJpg = []
    · rw [if_pos himg] at h
      right
      have := Except.ok.inj h
      subst this
      simp [List.mem_append]
    · rw [if_neg himg] at h
      left
      obtain ⟨i, rest, heq⟩ := List.exists_cons_of_ne_nil himg
      repeat' split at h
      all_goals try exact Except.noConfusion h
      all_goals
        have hr := Except.ok.inj h
      all_goals
        subst hr
      all_goals
        unfold FolderResult.images
      all_goals
        simp only []
      all_goals
        rw [pyGet_pySet_self, heq]
      all_goals
        simp

/-- Witness for C7 (amended): an empty directory validates to exactly
`{"no_images"}` with empty `images`, and the invariant instantiates on that
result. -/
theorem C7_no_images_amended_witness :
    validate_folder (fun _ => []) "d" [] = .ok { issues := ["no_images"] } ∧
    (({ issues := ["no_images"] } : FolderResult).images ≠ [] ∨
      "no_images" ∈ ({ issues := ["no_images"] } : FolderResult).issues) :=
  ⟨((C7_no_images_amended (fun _ => []) "d" []).1 (by rfl)).1,
   (C7_no_images_amended (fun _ => []) "d" []).2 { issues := ["no_images"] } (by rfl)⟩

theorem fallback_error_of_match : ∀ images : List String,
    (∃ im ∈ images, (burstSearch im).isSome = true) →
    fileSequenceFallback images = .error PyErr.nameError := by
  intro images
  induction images with
  | nil => rintro ⟨im, him, _⟩; simp at him
  | cons i rest ih =>
    rintro ⟨im, him, hsome⟩
    unfold fileSequenceFallback at ih ⊢
    simp only [List.map_cons, exMapM]
    by_cases hi : (burstSearch i).isSome
    · rw [if_pos hi]
    · rw [if_neg hi]
      have him' : im ∈ rest := by
        rcases List.mem_cons.mp him with h | h
        · subst h; exact absurd hsome hi
        · exact h
      rw [ih ⟨im, him', hsome⟩]

theorem fallback_ok_of_no_match : ∀ images : List String,
    (∀ im ∈ images, burstSearch im = none) →
    fileSequenceFallback images = .ok (images.map (fun _ => none)) := by
  intro images
  induction images with
  | nil => intro _; rfl
  | cons i rest ih =>
    intro hall
    unfold fileSequenceFallback at ih ⊢
    simp only [List.map_cons, exMapM]
    have hi : burstSearch i = none := hall i (List.mem_cons_self i rest)
    rw [hi]
    simp only [Option.isSome_none, Bool.false_eq_true, if_false]
    rw [ih (fun im him => hall im (List.mem_cons_of_mem i him))]

/-- Claim C10.  The file-name sequence fallback of `validate_folder` (lines
318–320) tests the comprehension variable `fl` but indexes the undefined
name `f`, so whenever any image file name matches the burst pattern
`\d+(?= of \d+)` the first match raises an unhandled `NameError`; the
fallback completes — yielding all-`None` file sequences — only when no file
name matches.  Concretely, validating a folder whose images lack the
`Sequence` tag and contain the burst-named `01 of 02.jpg` raises
`NameError`. -/
theorem C10_fallback_name_error (images : List String) :
    ((∃ im ∈ images, (burstSearch im).isSome = true) →
      fileSequenceFallback images = .error PyErr.nameError) ∧
    ((∀ im ∈ images, burstSearch im = none) →
      fileSequenceFallback images = .ok (images.map (fun _ => none))) ∧
    validate_folder c10Et "d" ["01 of 02.jpg", "plain.jpg"] = .error PyErr.nameError :=
  ⟨fallback_error_of_match images, fallback_ok_of_no_match images, rfl⟩

/-- Witness for C10: a folder listing with one burst-named file raises the
`NameError`; a listing with no burst-named file completes with all-`None`
sequences. -/
theorem C10_fallback_name_error_witness :
    fileSequenceFallback ["01 of 02.jpg", "plain.jpg"] = .error PyErr.nameError ∧
    fileSequenceFallback ["plain.jpg", "other.jpg"] = .ok [none, none] :=
  ⟨(C10_fallback_name_error ["01 of 02.jpg", "plain.jpg"]).1 (by decide),
   (C10_fallback_name_error ["plain.jpg", "other.jpg"]).2.1 (by decide)⟩

theorem colonAfterRun_append_colon : ∀ (w : List Char),
    (∀ c ∈ w, isAz c = true) → ∀ r, colonAfterRun (w ++ ':' :: r) = true := by
  intro w
  induction w with
  | nil => intro _ r; simp [colonAfterRun]
  | cons c w' ih =>
    intro haz r
    have h1 := haz c (List.mem_cons_self c w')
    have h2 := ih (fun d hd => haz d (List.mem_cons_of_mem c hd)) r
    simp only [List.cons_append, colonAfterRun]
    simp [h1, h2]

theorem azRunColon_tail {c : Char} {rest : List Char}
    (h : azRunColon (c :: rest) = false) : azRunColon rest = false := by
  simp only [azRunColon, Bool.or_eq_false_iff] at h
  exact h.2

theorem azRunColon_append_right {a b : List Char}
    (h : azRunColon (a ++ b) = false) : azRunColon b = false := by
  induction a with
  | nil => exact h
  | cons c a' ih => exact ih (azRunColon_tail h)

theorem stripGo_noMatch : ∀ (l run : List Char),
    (∀ c ∈ run, isAz c = true) → azRunColon (run.reverse ++ l) = false →
    stripGo run l = run.reverse ++ l := by
  intro l
  induction l with
  | nil => intro run _ _; simp [stripGo]
  | cons c rest ih =>
    intro run hrun hno
    by_cases haz : isAz c = true
    · simp only [stripGo, if_pos haz]
      have hlist : (c :: run).reverse ++ rest = run.reverse ++ c :: rest := by
        simp
      have := ih (c :: run)
        (fun d hd => by
          rcases List.mem_cons.mp hd with h | h
          · subst h; exact haz
          · exact hrun d h)
        (by rw [hlist]; exact hno)
      rw [this, hlist]
    · rw [show stripGo run (c :: rest) =
          (if c = ':' && run ≠ [] then stripGo [] rest
           else run.reverse ++ c :: stripGo [] rest) by
        simp only [stripGo, if_neg haz]]
      by_cases hcolon : (c = ':' && decide (run ≠ [])) = true
      · exfalso
        obtain ⟨hc, hne⟩ := Bool.and_eq_true_iff.mp hcolon
        have hne' : run ≠ [] := of_decide_eq_true hne
        have hrevne : run.reverse ≠ [] := by
          simpa using hne'
        obtain ⟨r0, rs, hr⟩ := List.exists_cons_of_ne_nil hrevne
        rw [hr] at hno
        have hr0 : isAz r0 = true := by
          refine hrun r0 ?_
          have : r0 ∈ run.reverse := by rw [hr]; exact List.mem_cons_self r0 rs
          simpa using this
        have hrs : ∀ d ∈ rs, isAz d = true := by
          intro d hd
          refine hrun d ?_
          have : d ∈ run.reverse := by rw [hr]; exact List.mem_cons_of_mem r0 hd
          simpa using this
        have hcar : colonAfterRun (rs ++ c :: rest) = true := by
          rw [of_decide_eq_true hc]
          exact colonAfterRun_append_colon rs hrs rest
        simp only [List.cons_append, azRunColon, List.append_eq, hr0, hcar,
          Bool.true_and, Bool.true_or, Bool.true_eq_false] at hno
      · rw [if_neg hcolon]
        have hrest : azRunColon rest = false :=
          azRunColon_tail (azRunColon_append_right hno)
        rw [ih [] (by simp) (by simpa using hrest)]
        simp

theorem stripGroup_short {t : String} (h : azRunColon t.data = false) :
    stripGroup t = t := by
  refine String.ext ?_
  show stripGo [] t.data = t.data
  rw [stripGo_noMatch t.data [] (by simp) (by simpa using h)]
  simp

theorem pyGet_selfKeyed (tags : List String) (vOf : String → Option TagVal) :
    ∀ t ∈ tags, pyGet (tags.map (fun u => (u, vOf u))) t = some (vOf t) := by
  induction tags with
  | nil => intro t ht; simp at ht
  | cons u us ih =>
    intro t ht
    by_cases hu : u = t
    · subst hu
      simp [pyGet, List.find?]
    · simp only [List.map_cons, pyGet, List.find?]
      rw [show (decide (u = t)) = false by simp [hu]]
      rcases List.mem_cons.mp ht with h | h
      · exact absurd h.symm hu
      · exact ih t h

/-- Claim C9.  For tag lists whose names are already short — no `[A-z]+:`
metadata-group prefix matches anywhere in them — stripping is the identity
on every name, re-running the normalizer over an already-normalized entry
set is a no-op, and (unconditionally) every requested tag is present in
every output row under its short name, with an explicit null when the
source entry lacks the key. -/
theorem C9_normalizer_idempotent (tags : List String)
    (entries : List (List (String × Option TagVal)))
    (hshort : ∀ t ∈ tags, azRunColon t.data = false) :
    (∀ t ∈ tags, stripGroup t = t) ∧
    normalizeEntries tags (normalizeEntries tags entries) =
      normalizeEntries tags entries ∧
    (∀ e ∈ entries, ∀ t ∈ tags,
      (stripGroup t, (pyGet e t).join) ∈
        (simplifyPairs tags).map (fun p => (p.2, (pyGet e p.1).join))) := by
  have hid : ∀ t ∈ tags, stripGroup t = t := fun t ht => stripGroup_short (hshort t ht)
  have hpairs : simplifyPairs tags = tags.map (fun t => (t, t)) := by
    unfold simplifyPairs
    exact List.map_congr_left (fun t ht => by rw [hid t ht])
  refine ⟨hid, ?_, ?_⟩
  · unfold normalizeEntries
    rw [List.map_map]
    refine List.map_congr_left (fun e he => ?_)
    simp only [Function.comp, hpairs, List.map_map]
    refine List.map_congr_left (fun t ht => ?_)
    simp only [Function.comp]
    have hcomp : (List.map ((fun p => (p.2, (pyGet e p.1).join)) ∘ fun t => (t, t)) tags) =
        tags.map (fun u => (u, (pyGet e u).join)) :=
      List.map_congr_left (fun u _ => rfl)
    rw [hcomp, pyGet_selfKeyed tags (fun u => (pyGet e u).join) t ht]
    rfl
  · intro e he t ht
    refine List.mem_map.mpr ⟨(t, stripGroup t), ?_, ?_⟩
    · unfold simplifyPairs
      exact List.mem_map.mpr ⟨t, ht, rfl⟩
    · rfl

/-- Witness for C9: the already-short tag list `["Make", "Sequence"]` over a
one-entry set is left unchanged by a second normalization, and the missing
`Sequence` key appears as an explicit null. -/
theorem C9_normalizer_idempotent_witness :
    normalizeEntries ["Make", "Sequence"]
        (normalizeEntries ["Make", "Sequence"] [[("Make", some (TagVal.s "Bushnell"))]]) =
      normalizeEntries ["Make", "Sequence"] [[("Make", some (TagVal.s "Bushnell"))]] ∧
    normalizeEntries ["Make", "Sequence"] [[("Make", some (TagVal.s "Bushnell"))]] =
      [[("Make", some (TagVal.s "Bushnell")), ("Sequence", none)]] ∧
    ("Sequence",
      (pyGet [("Make", some (TagVal.s "Bushnell"))] "Sequence").join) ∈
      (simplifyPairs ["Make", "Sequence"]).map (fun p =>
        (p.2, (pyGet [("Make", some (TagVal.s "Bushnell"))] p.1).join)) :=
  ⟨(C9_normalizer_idempotent ["Make", "Sequence"]
      [[("Make", some (TagVal.s "Bushnell"))]] (by decide)).2.1,
   by rfl,
   by
     have := (C9_normalizer_idempotent ["Make", "Sequence"]
       [[("Make", some (TagVal.s "Bushnell"))]] (by decide)).2.2
       [("Make", some (TagVal.s "Bushnell"))] (by decide)
       "Sequence" (by decide)
     simpa using this⟩

theorem charsLe_refl : ∀ l : List Char, charsLe l l = true
  | [] => rfl
  | a :: as => by simp [charsLe, charsLe_refl as]

theorem charsLe_total : ∀ l m : List Char, charsLe l m = true ∨ charsLe m l = true
  | [], _ => .inl rfl
  | _ :: _, [] => .inr rfl
  | a :: as, b :: bs => by
    by_cases hab : a = b
    · subst hab
      simpa [charsLe] using charsLe_total as bs
    · have hba : b ≠ a := fun h => hab h.symm
      have hne : a.toNat ≠ b.toNat := fun h => hab (Char.ext (UInt32.ext h))
      simp only [charsLe, if_neg hab, if_neg hba, decide_eq_true_eq]
      omega

theorem charsLe_antisymm : ∀ l m : List Char,
    charsLe l m = true → charsLe m l = true → l = m
  | [], [], _, _ => rfl
  | [], _ :: _, _, h2 => by simp [charsLe] at h2
  | _ :: _, [], h1, _ => by simp [charsLe] at h1
  | a :: as, b :: bs, h1, h2 => by
    by_cases hab : a = b
    · subst hab
      simp only [charsLe, if_pos rfl] at h1 h2
      rw [charsLe_antisymm as bs h1 h2]
    · have hba : b ≠ a := fun h => hab h.symm
      simp only [charsLe, if_neg hab, if_neg hba, decide_eq_true_eq] at h1 h2
      omega

theorem charsLe_trans : ∀ l m n : List Char,
    charsLe l m = true → charsLe m n = true → charsLe l n = true
  | [], _, _, _, _ => rfl
  | _ :: _, [], _, h1, _ => by simp [charsLe] at h1
  | _ :: _, _ :: _, [], _, h2 => by simp [charsLe] at h2
  | a :: as, b :: bs, c :: cs, h1, h2 => by
    by_cases hab : a = b <;> by_cases hbc : b = c
    · subst hab; subst hbc
      simp only [charsLe, if_pos rfl] at h1 h2 ⊢
      exact charsLe_trans as bs cs h1 h2
    · subst hab
      simp only [charsLe, if_neg hbc] at h2 ⊢
      exact h2
    · subst hbc
      simp only [charsLe, if_neg hab] at h1 ⊢
      exact h1
    · have hac : a ≠ c := by
        intro h
        subst h
        simp only [charsLe, if_neg hab] at h1
        have hba : b ≠ a := fun h => hab h.symm
        simp only [charsLe, if_neg hba] at h2
        simp only [decide_eq_true_eq] at h1 h2
        omega
      simp only [charsLe, if_neg hab, if_neg hbc, if_neg hac, decide_eq_true_eq] at h1 h2 ⊢
      omega

theorem strLe_refl (s : String) : strLe s s = true := charsLe_refl s.data

theorem strLe_total (a b : String) : strLe a b = true ∨ strLe b a = true :=
  charsLe_total a.data b.data

theorem strLe_antisymm {a b : String} (h1 : strLe a b = true)
    (h2 : strLe b a = true) : a = b :=
  String.ext (charsLe_antisymm a.data b.data h1 h2)

theorem strLe_trans {a b c : String} (h1 : strLe a b = true)
    (h2 : strLe b c = true) : strLe a c = true :=
  charsLe_trans a.data b.data c.data h1 h2

/-- The sortedness relation of `kw_list.sort(key=lambda x: x[0])`. -/
def KwR (a b : List String) : Prop := strLe (kwKey a) (kwKey b) = true

theorem insertKw_perm (x : List String) : ∀ l, List.Perm (insertKw x l) (x :: l)
  | [] => List.Perm.refl _
  | y :: ys => by
    unfold insertKw
    by_cases h : strLe (kwKey x) (kwKey y) = true
    · rw [if_pos h]
    · rw [if_neg h]
      exact ((insertKw_perm x ys).cons y).trans (List.Perm.swap x y ys)

theorem pySortKw_perm : ∀ l, List.Perm (pySortKw l) l
  | [] => List.Perm.refl _
  | x :: xs => (insertKw_perm x (pySortKw xs)).trans ((pySortKw_perm xs).cons x)

theorem mem_insertKw {y x : List String} {l : List (List String)} :
    y ∈ insertKw x l ↔ y = x ∨ y ∈ l := by
  rw [(insertKw_perm x l).mem_iff]
  exact List.mem_cons

theorem pairwise_insertKw (x : List String) : ∀ l, List.Pairwise KwR l →
    List.Pairwise KwR (insertKw x l)
  | [], _ => List.pairwise_singleton _ _
  | y :: ys, h => by
    rcases List.pairwise_cons.mp h with ⟨hy, hys⟩
    unfold insertKw
    by_cases hxy : strLe (kwKey x) (kwKey y) = true
    · rw [if_pos hxy]
      refine List.pairwise_cons.mpr ⟨?_, h⟩
      intro z hz
      rcases List.mem_cons.mp hz with hzz | hzz
      · rw [hzz]; exact hxy
      · exact strLe_trans hxy (hy z hzz)
    · rw [if_neg hxy]
      refine List.pairwise_cons.mpr ⟨?_, pairwise_insertKw x ys hys⟩
      intro z hz
      rcases mem_insertKw.mp hz with hzz | hzz
      · rw [hzz]
        rcases strLe_total (kwKey x) (kwKey y) with h2 | h2
        · exact absurd h2 hxy
        · exact h2
      · exact hy z hzz

theorem pySortKw_pairwise : ∀ l, List.Pairwise KwR (pySortKw l)
  | [] => List.Pairwise.nil
  | x :: xs => pairwise_insertKw x (pySortKw xs) (pySortKw_pairwise xs)

theorem filter_insertKw (x : List String) (k : String) : ∀ l,
    (insertKw x l).filter (fun y => decide (kwKey y = k)) =
      if kwKey x = k then x :: l.filter (fun y => decide (kwKey y = k))
      else l.filter (fun y => decide (kwKey y = k))
  | [] => by
    by_cases h : kwKey x = k
    · have hd : (decide (kwKey x = k)) = true := by simp [h]
      simp [insertKw, List.filter_cons, hd, h]
    · have hd : (decide (kwKey x = k)) = false := by simp [h]
      simp [insertKw, List.filter_cons, hd, h]
  | y :: ys => by
    unfold insertKw
    by_cases hxy : strLe (kwKey x) (kwKey y) = true
    · rw [if_pos hxy]
      by_cases h : kwKey x = k
      · have hd : (decide (kwKey x = k)) = true := by simp [h]
        rw [if_pos h, List.filter_cons, hd]
        simp
      · have hd : (decide (kwKey x = k)) = false := by simp [h]
        rw [if_neg h, List.filter_cons, hd]
        simp
    · rw [if_neg hxy]
      by_cases hyk : kwKey y = k
      · have hxk : kwKey x ≠ k := by
          intro hh
          refine hxy ?_
          rw [hh, hyk]
          exact strLe_refl _
        have hd : (decide (kwKey y = k)) = true := by simp [hyk]
        rw [if_neg hxk, List.filter_cons, List.filter_cons, hd]
        simp only [if_true]
        rw [filter_insertKw x k ys, if_neg hxk]
      · have hd : (decide (kwKey y = k)) = false := by simp [hyk]
        rw [List.filter_cons, List.filter_cons, hd]
        simp only [Bool.false_eq_true, if_false]
        rw [filter_insertKw x k ys]

theorem filter_pySortKw (k : String) : ∀ l,
    (pySortKw l).filter (fun y => decide (kwKey y = k)) =
      l.filter (fun y => decide (kwKey y = k))
  | [] => rfl
  | x :: xs => by
    unfold pySortKw
    rw [filter_insertKw x k (pySortKw xs), filter_pySortKw k xs]
    by_cases h : kwKey x = k
    · have hd : (decide (kwKey x = k)) = true := by simp [h]
      rw [if_pos h, List.filter_cons, hd]
      simp
    · have hd : (decide (kwKey x = k)) = false := by simp [h]
      rw [if_neg h, List.filter_cons, hd]
      simp

theorem dropWhile_head_false {α : Type} (p : α → Bool) :
    ∀ (l : List α) (d : α) (t : List α), l.dropWhile p = d :: t → p d = false := by
  intro l
  induction l with
  | nil => intro d t h; exact absurd h (by simp)
  | cons a rest ih =>
    intro d t h
    rw [List.dropWhile_cons] at h
    by_cases ha : p a = true
    · rw [if_pos ha] at h
      exact ih d t h
    · rw [if_neg ha] at h
      have := (List.cons.inj h).1
      rw [← this]
      exact Bool.not_eq_true _ |>.mp ha

theorem pyGroupByGo_eq (k : String) : ∀ (ys acc : List (List String)),
    pyGroupByGo k acc ys =
      (k, acc.reverse ++ ys.takeWhile (fun y => decide (kwKey y = k))) ::
        pyGroupBy (ys.dropWhile (fun y => decide (kwKey y = k)))
  | [], acc => by simp [pyGroupByGo, pyGroupBy]
  | y :: ys, acc => by
    by_cases h : kwKey y = k
    · have hd : (decide (kwKey y = k)) = true := by simp [h]
      simp only [pyGroupByGo, if_pos h, List.takeWhile_cons, List.dropWhile_cons, hd, if_true]
      rw [pyGroupByGo_eq k ys (y :: acc)]
      simp
    · have hd : (decide (kwKey y = k)) = false := by simp [h]
      simp only [pyGroupByGo, if_neg h, List.takeWhile_cons, List.dropWhile_cons, hd]
      simp only [Bool.false_eq_true, if_false]
      rw [show pyGroupBy (y :: ys) = pyGroupByGo (kwKey y) [y] ys from rfl]
      simp

theorem pyGroupBy_cons (x : List String) (xs : List (List String)) :
    pyGroupBy (x :: xs) =
      (kwKey x, x :: xs.takeWhile (fun y => decide (kwKey y = kwKey x))) ::
        pyGroupBy (xs.dropWhile (fun y => decide (kwKey y = kwKey x))) := by
  rw [show pyGroupBy (x :: xs) = pyGroupByGo (kwKey x) [x] xs from rfl]
  rw [pyGroupByGo_eq]
  rfl

theorem dropWhile_key_ne (x : List String) (xs : List (List String))
    (hx : ∀ y ∈ xs, KwR x y) (hxs : List.Pairwise KwR xs) :
    ∀ y ∈ xs.dropWhile (fun y => decide (kwKey y = kwKey x)), kwKey y ≠ kwKey x := by
  cases hdd : xs.dropWhile (fun y => decide (kwKey y = kwKey x)) with
  | nil => intro y hy; simp at hy
  | cons d0 dw2 =>
    have hd0 : (decide (kwKey d0 = kwKey x)) = false :=
      dropWhile_head_false _ xs d0 dw2 hdd
    have hd0' : kwKey d0 ≠ kwKey x := by
      intro hh; rw [hh] at hd0; simp at hd0
    have hsub : List.Sublist (d0 :: dw2) xs := by
      rw [← hdd]; exact List.dropWhile_sublist _
    have hpwd : List.Pairwise KwR (d0 :: dw2) := hxs.sublist hsub
    intro y hy
    rcases List.mem_cons.mp hy with hyy | hyy
    · rw [hyy]; exact hd0'
    · intro hyk
      have h1 : strLe (kwKey x) (kwKey d0) = true :=
        hx d0 (hsub.subset (List.mem_cons_self _ _))
      have h2 : strLe (kwKey d0) (kwKey y) = true := (List.pairwise_cons.mp hpwd).1 y hyy
      rw [hyk] at h2
      exact hd0' (strLe_antisymm h2 h1)

theorem pyGroupBy_char : ∀ (n : Nat) (l : List (List String)), l.length ≤ n →
    List.Pairwise KwR l →
    (∀ kg ∈ pyGroupBy l, kg.2 = l.filter (fun w => decide (kwKey w = kg.1))) ∧
    ((pyGroupBy l).map (fun kg => kg.1)).Nodup ∧
    (∀ kg ∈ pyGroupBy l, ∃ z ∈ l, kwKey z = kg.1) ∧
    (∀ z ∈ l, ∃ g, (kwKey z, g) ∈ pyGroupBy l) := by
  intro n
  induction n with
  | zero =>
    intro l hl _
    have : l = [] := List.eq_nil_of_length_eq_zero (Nat.le_zero.mp hl)
    subst this
    exact ⟨by simp [pyGroupBy], by simp [pyGroupBy], by simp [pyGroupBy], by simp⟩
  | succ n ih =>
    intro l hl hpw
    match l with
    | [] => exact ⟨by simp [pyGroupBy], by simp [pyGroupBy], by simp [pyGroupBy], by simp⟩
    | x :: xs =>
      rcases List.pairwise_cons.mp hpw with ⟨hx, hxs⟩
      have hlen : xs.length ≤ n := by
        simp only [List.length_cons] at hl
        omega
      have hdsub : List.Sublist (xs.dropWhile (fun w => decide (kwKey w = kwKey x))) xs :=
        List.dropWhile_sublist _
      have hdlen : (xs.dropWhile (fun w => decide (kwKey w = kwKey x))).length ≤ n :=
        le_trans hdsub.length_le hlen
      obtain ⟨ih1, ih2, ih3, ih4⟩ := ih _ hdlen (hxs.sublist hdsub)
      have ftw : ∀ z ∈ xs.takeWhile (fun w => decide (kwKey w = kwKey x)),
          kwKey z = kwKey x := by
        intro z hz
        have hpz := List.mem_takeWhile_imp hz
        simpa using hpz
      have fdw := dropWhile_key_ne x xs hx hxs
      have hxsf : xs.filter (fun w => decide (kwKey w = kwKey x)) =
          xs.takeWhile (fun w => decide (kwKey w = kwKey x)) := by
        conv_lhs =>
          rw [← List.takeWhile_append_dropWhile (fun w => decide (kwKey w = kwKey x)) xs]
        rw [List.filter_append,
          List.filter_eq_self.mpr (fun a ha => by
            simp only [decide_eq_true_eq]
            exact ftw a ha),
          List.filter_eq_nil_iff.mpr (fun a ha => by
            simp only [decide_eq_true_eq]
            exact fdw a ha),
          List.append_nil]
      have hhead : x :: xs.takeWhile (fun w => decide (kwKey w = kwKey x)) =
          (x :: xs).filter (fun w => decide (kwKey w = kwKey x)) := by
        rw [List.filter_cons]
        rw [show (decide (kwKey x = kwKey x)) = true by simp]
        rw [if_pos rfl, hxsf]
      have htail : ∀ kg ∈ pyGroupBy (xs.dropWhile (fun w => decide (kwKey w = kwKey x))),
          kg.2 = (x :: xs).filter (fun w => decide (kwKey w = kg.1)) := by
        intro kg hkg
        obtain ⟨z, hz, hzk⟩ := ih3 kg hkg
        have hkne : kg.1 ≠ kwKey x := by rw [← hzk]; exact fdw z hz
        have hx_ne : (decide (kwKey x = kg.1)) = false := by
          simp only [decide_eq_false_iff_not]
          intro hh
          exact hkne hh.symm
        rw [ih1 kg hkg, List.filter_cons, hx_ne]
        simp only [Bool.false_eq_true, if_false]
        conv_rhs =>
          rw [← List.takeWhile_append_dropWhile (fun w => decide (kwKey w = kwKey x)) xs]
        have hfiltw : (xs.takeWhile (fun w => decide (kwKey w = kwKey x))).filter
            (fun w => decide (kwKey w = kg.1)) = [] := by
          refine List.filter_eq_nil_iff.mpr ?_
          intro a ha hh
          simp only [decide_eq_true_eq] at hh
          rw [ftw a ha] at hh
          exact hkne hh.symm
        rw [List.filter_append, hfiltw, List.nil_append]
      rw [pyGroupBy_cons]
      refine ⟨?_, ?_, ?_, ?_⟩
      · intro kg hkg
        rcases List.mem_cons.mp hkg with hkh | hkt
        · rw [hkh]
          exact hhead
        · exact htail kg hkt
      · simp only [List.map_cons, List.nodup_cons]
        refine ⟨?_, ih2⟩
        intro hmem
        obtain ⟨kg, hkg, hkeq⟩ := List.mem_map.mp hmem
        obtain ⟨z, hz, hzk⟩ := ih3 kg hkg
        exact fdw z hz (by rw [hzk, hkeq])
      · intro kg hkg
        rcases List.mem_cons.mp hkg with hkh | hkt
        · exact ⟨x, List.mem_cons_self _ _, by rw [hkh]⟩
        · obtain ⟨z, hz, hzk⟩ := ih3 kg hkt
          exact ⟨z, List.mem_cons_of_mem x (hdsub.subset hz), hzk⟩
      · intro z hz
        rcases List.mem_cons.mp hz with hzz | hzz
        · refine ⟨x :: xs.takeWhile (fun w => decide (kwKey w = kwKey x)), ?_⟩
          rw [hzz]
          exact List.mem_cons_self _ _
        · by_cases hzk : kwKey z = kwKey x
          · refine ⟨x :: xs.takeWhile (fun w => decide (kwKey w = kwKey x)), ?_⟩
            rw [hzk]
            exact List.mem_cons_self _ _
          · have hzdw : z ∈ xs.dropWhile (fun w => decide (kwKey w = kwKey x)) := by
              have hsplit := List.takeWhile_append_dropWhile
                (fun w => decide (kwKey w = kwKey x)) xs
              rw [← hsplit] at hzz
              rcases List.mem_append.mp hzz with h | h
              · exact absurd (ftw z h) hzk
              · exact h
            obtain ⟨g, hg⟩ := ih4 z hzdw
            exact ⟨g, List.mem_cons_of_mem _ hg⟩

theorem tagPrefix_inj {a b : String} (h : ("Tag_" ++ a : String) = "Tag_" ++ b) :
    a = b := by
  have hd := congrArg String.data h
  simp only [String.data_append] at hd
  exact String.ext (List.append_cancel_left hd)

theorem exMapM_map {ε α β : Type} (f : α → Except ε β) (g : α → β) :
    ∀ l : List α, (∀ a ∈ l, f a = .ok (g a)) → exMapM f l = .ok (l.map g)
  | [], _ => rfl
  | a :: as, h => by
    simp only [exMapM, List.map_cons]
    rw [h a (List.mem_cons_self a as),
      exMapM_map f g as (fun b hb => h b (List.mem_cons_of_mem a hb))]

theorem pySet_fresh {α : Type} (d : List (String × α)) (k : String) (v : α)
    (h : ∀ p ∈ d, p.1 ≠ k) : pySet d k v = d ++ [(k, v)] := by
  unfold pySet
  rw [List.find?_eq_none.mpr (fun p hp => by
    simp only [decide_eq_true_eq]
    exact h p hp)]
  rfl

/-- The join applied to one keyword group by `_convert_keywords`. -/
def kwJoin (vals : List (List String)) : String :=
  String.intercalate ", " (vals.map (fun vl => pyStrip ((vl.get? 1).getD "")))

theorem buildKwDictGo_ok :
    ∀ (groups : List (String × List (List String))) (acc : List (String × String)),
    (∀ kg ∈ groups, ∀ p ∈ acc, p.1 ≠ "Tag_" ++ kg.1) →
    ((groups.map (fun kg => kg.1)).Nodup) →
    (∀ kg ∈ groups, ∀ vl ∈ kg.2, (vl.get? 1).isSome = true) →
    buildKwDictGo acc groups =
      .ok (acc ++ groups.map (fun kg => ("Tag_" ++ kg.1, kwJoin kg.2)))
  | [], acc, _, _, _ => by simp [buildKwDictGo]
  | (key, vals) :: rest, acc, hdisj, hnodup, hok => by
    simp only [buildKwDictGo]
    have hm : exMapM (fun vl =>
        match vl.get? 1 with
        | some v => .ok (pyStrip v)
        | none => .error PyErr.indexError) vals =
        .ok (vals.map (fun vl => pyStrip ((vl.get? 1).getD ""))) := by
      refine exMapM_map _ _ vals ?_
      intro vl hvl
      obtain ⟨v, hv⟩ := Option.isSome_iff_exists.mp
        (hok (key, vals) (List.mem_cons_self _ _) vl hvl)
      rw [hv]
      rfl
    rw [hm]
    simp only []
    have hfresh : pySet acc ("Tag_" ++ key)
        (String.intercalate ", " (vals.map (fun vl => pyStrip ((vl.get? 1).getD "")))) =
        acc ++ [("Tag_" ++ key, kwJoin vals)] := by
      refine pySet_fresh acc _ _ ?_
      intro p hp
      exact hdisj (key, vals) (List.mem_cons_self _ _) p hp
    rw [hfresh]
    have hknotin : key ∉ rest.map (fun kg => kg.1) :=
      (List.nodup_cons.mp (by simpa using hnodup)).1
    rw [buildKwDictGo_ok rest (acc ++ [("Tag_" ++ key, kwJoin vals)])
      (by
        intro kg hkg p hp
        rcases List.mem_append.mp hp with hpa | hpe
        · exact hdisj kg (List.mem_cons_of_mem _ hkg) p hpa
        · have hpp : p = ("Tag_" ++ key, kwJoin vals) := by simpa using hpe
          rw [hpp]
          intro hh
          refine hknotin ?_
          rw [tagPrefix_inj hh]
          exact List.mem_map.mpr ⟨kg, hkg, rfl⟩)
      (List.nodup_cons.mp (by simpa using hnodup)).2
      (fun kg hkg => hok kg (List.mem_cons_of_mem _ hkg))]
    simp

theorem pyGet_map_tagged (valf : String × List (List String) → String) (k : String) :
    ∀ groups : List (String × List (List String)),
    pyGet (groups.map (fun kg => ("Tag_" ++ kg.1, valf kg))) ("Tag_" ++ k) =
      (groups.find? (fun kg => decide (kg.1 = k))).map valf
  | [] => rfl
  | kg :: rest => by
    by_cases h : kg.1 = k
    · simp only [List.map_cons, pyGet, List.find?]
      rw [show (decide (("Tag_" ++ kg.1 : String) = "Tag_" ++ k)) = true by simp [h],
        show (decide (kg.1 = k)) = true by simp [h]]
      rfl
    · simp only [List.map_cons, pyGet, List.find?]
      rw [show (decide (("Tag_" ++ kg.1 : String) = "Tag_" ++ k)) = false by
          simp only [decide_eq_false_iff_not]
          intro hh
          exact h (tagPrefix_inj hh),
        show (decide (kg.1 = k)) = false by simp [h]]
      exact pyGet_map_tagged valf k rest

theorem find?_group_of_mem (k : String) (g : List (List String)) :
    ∀ groups : List (String × List (List String)),
    ((groups.map (fun kg => kg.1)).Nodup) → (k, g) ∈ groups →
    groups.find? (fun kg => decide (kg.1 = k)) = some (k, g)
  | [], _, hmem => absurd hmem (by simp)
  | (k0, g0) :: rest, hnodup, hmem => by
    simp only [List.map_cons] at hnodup
    obtain ⟨hn1, hn2⟩ := List.nodup_cons.mp hnodup
    by_cases h : k0 = k
    · subst h
      have hgg : (k0, g) = (k0, g0) := by
        rcases List.mem_cons.mp hmem with hh | hh
        · exact hh
        · exact absurd (List.mem_map.mpr ⟨(k0, g), hh, rfl⟩) hn1
      rw [hgg]
      simp [List.find?]
    · simp only [List.find?]
      rw [show (decide (k0 = k)) = false by simp [h]]
      refine find?_group_of_mem k g rest hn2 ?_
      rcases List.mem_cons.mp hmem with hh | hh
      · exact absurd (Prod.mk.inj hh).1.symm h
      · exact hh

/-- Claim C8.  `_convert_keywords` groups the annotation strings by the piece
before the colon, joining the whitespace-stripped values of equal tag
numbers with `', '` in original order: for every tag number `k`, the entry
`Tag_k` of the produced dictionary is exactly the join over the annotations
whose number is `k`, and is absent when no annotation has that number.  A
single-string annotation field is treated exactly as the one-element list,
and the docstring example evaluates as documented. -/
theorem C8_keyword_unpacking (kws : List String) (k sv : String)
    (hform : ∀ kw ∈ kws, 2 ≤ (pySplitColon kw).length) :
    (∃ d, convert_keywords (some (.ls kws)) = .ok d ∧
      pyGet d ("Tag_" ++ k) =
        (if kws.filter (fun kw => decide ((pySplitColon kw).headD "" = k)) = [] then none
         else some (String.intercalate ", "
           ((kws.filter (fun kw => decide ((pySplitColon kw).headD "" = k))).map
             (fun kw => pyStrip (((pySplitColon kw).get? 1).getD "")))))) ∧
    convert_keywords (some (.s sv)) = convert_keywords (some (.ls [sv])) ∧
    convert_keywords (some (.ls ["15: E100-2-23", "16: Person", "16: Setup", "24: Phil"])) =
      .ok [("Tag_15", "E100-2-23"), ("Tag_16", "Person, Setup"), ("Tag_24", "Phil")] := by
  refine ⟨?_, rfl, by rfl⟩
  have hconv : convert_keywords (some (.ls kws)) =
      buildKwDictGo [] (pyGroupBy (pySortKw (kws.map pySplitColon))) := rfl
  obtain ⟨ch1, ch2, ch3, ch4⟩ := pyGroupBy_char (pySortKw (kws.map pySplitColon)).length
    (pySortKw (kws.map pySplitColon)) le_rfl (pySortKw_pairwise _)
  have hmemsorted : ∀ vl ∈ pySortKw (kws.map pySplitColon),
      ∃ kw ∈ kws, pySplitColon kw = vl := by
    intro vl hvl
    have hm : vl ∈ kws.map pySplitColon := (pySortKw_perm _).subset hvl
    obtain ⟨kw, hkw, heq⟩ := List.mem_map.mp hm
    exact ⟨kw, hkw, heq⟩
  have hok : ∀ kg ∈ pyGroupBy (pySortKw (kws.map pySplitColon)),
      ∀ vl ∈ kg.2, (vl.get? 1).isSome = true := by
    intro kg hkg vl hvl
    rw [ch1 kg hkg] at hvl
    have hvs := List.mem_of_mem_filter hvl
    obtain ⟨kw, hkw, heq⟩ := hmemsorted vl hvs
    have hlen := hform kw hkw
    rw [heq] at hlen
    rw [Option.isSome_iff_ne_none]
    intro hn
    rw [List.get?_eq_none] at hn
    omega
  have hdict := buildKwDictGo_ok (pyGroupBy (pySortKw (kws.map pySplitColon))) []
    (by simp) ch2 hok
  refine ⟨(pyGroupBy (pySortKw (kws.map pySplitColon))).map
    (fun kg => ("Tag_" ++ kg.1, kwJoin kg.2)), ?_, ?_⟩
  · rw [hconv, hdict]
    simp
  · rw [show ((pyGroupBy (pySortKw (kws.map pySplitColon))).map
        (fun kg => ("Tag_" ++ kg.1, kwJoin kg.2))) =
        ((pyGroupBy (pySortKw (kws.map pySplitColon))).map
        (fun kg => ("Tag_" ++ kg.1, (fun kg2 => kwJoin kg2.2) kg))) from rfl]
    rw [pyGet_map_tagged]
    by_cases hfil : kws.filter (fun kw => decide ((pySplitColon kw).headD "" = k)) = []
    · rw [if_pos hfil]
      have hnone : ∀ kg ∈ pyGroupBy (pySortKw (kws.map pySplitColon)),
          ¬ (fun kg2 => decide (kg2.1 = k)) kg = true := by
        intro kg hkg
        simp only [decide_eq_true_eq]
        intro hh
        obtain ⟨z, hz, hzk⟩ := ch3 kg hkg
        obtain ⟨kw, hkw, heq⟩ := hmemsorted z hz
        have hin : kw ∈ kws.filter (fun kw => decide ((pySplitColon kw).headD "" = k)) := by
          refine List.mem_filter.mpr ⟨hkw, ?_⟩
          simp only [decide_eq_true_eq]
          rw [heq]
          show kwKey z = k
          rw [hzk, hh]
        rw [hfil] at hin
        simp at hin
      rw [List.find?_eq_none.mpr hnone]
      rfl
    · rw [if_neg hfil]
      obtain ⟨kw0, hkw0mem⟩ := List.exists_mem_of_ne_nil _ hfil
      have hkw0 := List.mem_filter.mp hkw0mem
      have hkk : kwKey (pySplitColon kw0) = k := by
        have h2 := hkw0.2
        simp only [decide_eq_true_eq] at h2
        exact h2
      have hz : pySplitColon kw0 ∈ pySortKw (kws.map pySplitColon) := by
        rw [(pySortKw_perm (kws.map pySplitColon)).mem_iff]
        exact List.mem_map.mpr ⟨kw0, hkw0.1, rfl⟩
      obtain ⟨g, hg⟩ := ch4 (pySplitColon kw0) hz
      rw [hkk] at hg
      rw [find?_group_of_mem k g _ ch2 hg]
      have hgf := ch1 (k, g) hg
      simp only [Option.map_some']
      refine congrArg _ ?_
      show kwJoin g = _
      rw [show g = (pySortKw (kws.map pySplitColon)).filter
        (fun w => decide (kwKey w = k)) from hgf]
      rw [filter_pySortKw, List.filter_map]
      unfold kwJoin
      rw [List.map_map]
      rfl

/-- Witness for C8: the docstring example, with the general lookup law
instantiated at tag number 16 — the two `16:` annotations join, in order,
to `Person, Setup`. -/
theorem C8_keyword_unpacking_witness :
    ∃ d, convert_keywords
        (some (.ls ["15: E100-2-23", "16: Person", "16: Setup", "24: Phil"])) = .ok d ∧
      pyGet d "Tag_16" = some "Person, Setup" := by
  obtain ⟨d, hd, hlook⟩ := (C8_keyword_unpacking
    ["15: E100-2-23", "16: Person", "16: Setup", "24: Phil"] "16" "x" (by decide)).1
  refine ⟨d, hd, ?_⟩
  rw [show ("Tag_16" : String) = "Tag_" ++ "16" from rfl, hlook]
  rfl

end Sctt
